import Mathlib

/-!
Verification of the rollout-controller stage-checking decision engine
(`rs/rollout-controller/src/calculation/stage_checks.rs`).

Embedding conventions:
* Calendar dates (`chrono::NaiveDate`) are modelled as integers counting
  days in the proleptic Gregorian calendar, with day 1 = 0001-01-01,
  which is a Monday.  `checked_add_days` cannot overflow on `Int`, so the
  corresponding `expect` branches are unreachable in the model.
* `f64` second counts (bake telemetry, bake requirements) are modelled as
  exact rationals.  The `Duration::from_secs_f64 ∘ Duration::as_secs_f64`
  round-trip (nanosecond rounding) is modelled as the identity; its
  negative-seconds panic is unreachable because the argument is the
  difference `stage_bake - bake` taken only when `bake < stage_bake`.
* Rust panics (`panic!`, `expect`, `unwrap`, out-of-bounds indexing) are
  modelled as `EngineError.panic` values; errors returned as values
  (`anyhow::Result::Err`) are modelled as `EngineError.err` values, so the
  two failure channels stay distinguishable.
* `BTreeMap<String, _>` is modelled as an association list kept sorted by
  key (insertion sorts, later equal keys overwrite), matching both lookup
  and iteration order of the original.
* The optional `slog::Logger` parameter only produces log output and is
  dropped from the model.
-/

/-- Decidable equality for `Except`, used to evaluate the engine on
concrete inputs. -/
instance {ε α : Type} [DecidableEq ε] [DecidableEq α] : DecidableEq (Except ε α) := fun x y =>
  match x, y with
  | Except.ok a, Except.ok b =>
    if h : a = b then isTrue (congrArg Except.ok h)
    else isFalse (fun hc => h (Except.ok.inj hc))
  | Except.error a, Except.error b =>
    if h : a = b then isTrue (congrArg Except.error h)
    else isFalse (fun hc => h (Except.error.inj hc))
  | Except.ok _, Except.error _ => isFalse (fun hc => Except.noConfusion hc)
  | Except.error _, Except.ok _ => isFalse (fun hc => Except.noConfusion hc)

namespace RolloutController

/-- Weekdays, mirroring `chrono::Weekday`. -/
inductive Weekday where
  | Mon | Tue | Wed | Thu | Fri | Sat | Sun
deriving DecidableEq

/-- Weekday of a proleptic-Gregorian day number (day 1 = 0001-01-01, a
Monday), mirroring `chrono::Datelike::weekday` on `NaiveDate`. -/
def dateWeekday (d : Int) : Weekday :=
  match (d % 7).toNat with
  | 1 => Weekday.Mon
  | 2 => Weekday.Tue
  | 3 => Weekday.Wed
  | 4 => Weekday.Thu
  | 5 => Weekday.Fri
  | 6 => Weekday.Sat
  | _ => Weekday.Sun

/-- One candidate build inside a release (`crate::calculation::Version`).
`subnets` is the list of pinned subnet-id prefixes; a non-empty list marks
a feature build. -/
structure Version where
  name : String
  version : String
  subnets : List String
deriving DecidableEq

/-- A release of the catalog (`crate::calculation::Release`).  The `date`
field is modelled from the spec: the source derives the release start
date from `rc_name` via `Release::date()`, whose implementation
(`calculation/mod.rs`) is not part of the sources under verification; the
spec gives each release a `start_date` consumed by the calendar gate. -/
structure Release where
  rc_name : String
  versions : List Version
  date : Int
deriving DecidableEq

/-- A subnet snapshot (`ic_management_types::Subnet`), restricted to the
two fields the decision engine reads: its principal (textual form) and
its current replica version. -/
structure Subnet where
  principal : String
  replica_version : String
deriving DecidableEq

/-- Governance proposal metadata
(`ic_management_backend::proposal::ProposalInfoInternal`), restricted to
the fields the engine reads (the two timestamp fields are unused). -/
structure ProposalInfoInternal where
  id : Nat
  executed : Bool
deriving DecidableEq

/-- Payload of a subnet-update proposal
(`registry_canister::...::UpdateSubnetReplicaVersionPayload`). -/
structure UpdateSubnetReplicaVersionPayload where
  subnet_id : String
  replica_version_id : String
deriving DecidableEq

/-- An update proposal for one subnet
(`ic_management_backend::proposal::SubnetUpdateProposal`). -/
structure SubnetUpdateProposal where
  payload : UpdateSubnetReplicaVersionPayload
  info : ProposalInfoInternal
deriving DecidableEq

/-- Payload of an unassigned-nodes update proposal
(`registry_canister::...::UpdateUnassignedNodesConfigPayload`), restricted
to the field the engine reads. -/
structure UpdateUnassignedNodesConfigPayload where
  replica_version : Option String
deriving DecidableEq

/-- An update proposal for the unassigned nodes
(`ic_management_backend::proposal::UpdateUnassignedNodesProposal`). -/
structure UpdateUnassignedNodesProposal where
  payload : UpdateUnassignedNodesConfigPayload
  info : ProposalInfoInternal
deriving DecidableEq

/-- One stage of the rollout plan (`crate::calculation::Stage`).
`bake_time` is the stage bake requirement in seconds
(`Duration::as_secs_f64`). -/
structure Stage where
  subnets : List String
  bake_time : Rat
  wait_for_next_week : Bool
  update_unassigned_nodes : Bool
deriving DecidableEq

/-- The rollout section of the plan (`crate::calculation::Rollout`). -/
structure Rollout where
  pause : Bool
  skip_days : List Weekday
  stages : List Stage
deriving DecidableEq

/-- The whole plan (`crate::calculation::Index`). -/
structure Index where
  rollout : Rollout
  releases : List Release
deriving DecidableEq

/-- The actions the engine can emit (`SubnetAction`). -/
inductive SubnetAction where
  | Noop (subnet_short : String)
  | Baking (subnet_short : String) (remaining : Rat)
  | PendingProposal (subnet_short : String) (proposal_id : Nat)
  | PlaceProposal (is_unassigned : Bool) (subnet_principal : String) (version : String)
  | WaitForNextWeek (subnet_short : String)
deriving DecidableEq

/-- Failure channels of the engine: `panic` models Rust panics
(`panic!`, `expect`, `unwrap`, slice indexing), `err` models
`anyhow::Error` values returned through `Result`. -/
inductive EngineError where
  | panic (msg : String)
  | err (msg : String)
deriving DecidableEq

/-- Character-list prefix test.  Rust `str::starts_with` is a byte-level
prefix test on UTF-8 strings, which coincides with the character-level
prefix test on valid strings; this structurally recursive form is used so
that concrete runs of the engine reduce inside the kernel. -/
def charsStartWith : List Char → List Char → Bool
  | [], _ => true
  | _ :: _, [] => false
  | c :: cs, d :: ds => c == d && charsStartWith cs ds

/-- Rust `str::starts_with`: does `s` start with `p`? -/
def strStartsWith (s p : String) : Bool :=
  charsStartWith p.data s.data

/-- Strict lexicographic order on character lists. -/
def charsLt : List Char → List Char → Bool
  | _, [] => false
  | [], _ :: _ => true
  | c :: cs, d :: ds => if c = d then charsLt cs ds else decide (c < d)

/-- The strict order `BTreeMap<String, _>` keys follow: byte-wise
lexicographic comparison of UTF-8 strings, which coincides with
character-wise lexicographic comparison. -/
def strLt (a b : String) : Bool :=
  charsLt a.data b.data

/-- The closure passed to `iter().all` in `check_stages`: is an action a
`Noop`? -/
def isNoop : SubnetAction → Bool
  | SubnetAction.Noop _ => true
  | _ => false

/-- Insertion into a `BTreeMap<String, Version>` modelled as a sorted
association list: keeps keys sorted, an equal key overwrites. -/
def btreeInsert (k : String) (v : Version) : List (String × Version) → List (String × Version)
  | [] => [(k, v)]
  | e :: rest =>
    if strLt k e.1 then (k, v) :: e :: rest
    else if k = e.1 then (k, v) :: rest
    else e :: btreeInsert k v rest

/-- `collect::<BTreeMap<_, _>>()` over a list of key-value pairs. -/
def btreeOfList (l : List (String × Version)) : List (String × Version) :=
  l.foldl (fun acc e => btreeInsert e.1 e.2 acc) []

/-- Accumulator-based duplicate removal preserving first occurrences,
mirroring `itertools::Itertools::unique`. -/
def uniqueAux {α : Type} [DecidableEq α] : List α → List α → List α
  | _, [] => []
  | seen, x :: rest =>
    if x ∈ seen then uniqueAux seen rest else x :: uniqueAux (x :: seen) rest

/-- `itertools::Itertools::unique`: deduplicate keeping the first
occurrence of each element. -/
def uniqueList {α : Type} [DecidableEq α] (l : List α) : List α :=
  uniqueAux [] l

/-- Loop body of `week_passed`: the fuel argument counts the remaining
iterations `counter ≤ now`, i.e. it starts at `(now - release_start)` so
that the counters visited are exactly `release_start + 1, …, now`. -/
def weekPassedGo : Nat → Int → Bool
  | 0, _ => false
  | fuel + 1, counter =>
    if dateWeekday counter = Weekday.Mon then true
    else weekPassedGo fuel (counter + 1)

/-- Source `week_passed`: starting from the day after `release_start`,
scan days up to and including `now` for a Monday. -/
def week_passed (release_start now : Int) : Bool :=
  weekPassedGo (now - release_start).toNat (release_start + 1)

/-- Subtraction on `Rat` written through `mkRat` so that it reduces
inside the kernel (the library subtraction is deliberately irreducible);
`ratSub_eq_sub` below identifies it with the ordinary subtraction. -/
def ratSub (a b : Rat) : Rat :=
  mkRat (a.num * b.den - b.num * a.den) (a.den * b.den)

/-- Source `get_remaining_bake_time_for_subnet`: the bake clock.  A
missing telemetry sample is an `anyhow` error returned as a value. -/
def get_remaining_bake_time_for_subnet (last_bake_status : List (String × Rat))
    (subnet : Subnet) (stage_bake_time : Rat) : Except EngineError Rat :=
  match last_bake_status.lookup subnet.principal with
  | none =>
    Except.error (EngineError.err
      ("Subnet with principal " ++ subnet.principal ++ " not found"))
  | some bake =>
    if stage_bake_time ≤ bake then Except.ok 0
    else Except.ok (ratSub stage_bake_time bake)

/-- Source `get_open_proposal_for_subnet`: first subnet-update proposal
matching the subnet and desired version that is not executed. -/
def get_open_proposal_for_subnet (subnet_update_proposals : List SubnetUpdateProposal)
    (subnet : Subnet) (desired_version : String) : Option SubnetUpdateProposal :=
  subnet_update_proposals.find? fun p =>
    p.payload.subnet_id == subnet.principal &&
    p.payload.replica_version_id == desired_version &&
    !p.info.executed

/-- Resolved targets for one decision call (`DesiredReleaseVersion`). -/
structure DesiredReleaseVersion where
  subnets : List (String × Version)
  unassigned_nodes : Version
  release : Release
deriving DecidableEq

/-- One step of the `subnets.iter().map(...)` building `subnets_releases`
in `desired_rollout_release_version`: the first release containing the
subnet's current version, `expect`-panicking when there is none. -/
def find_release_for (releases : List Release) (s : Subnet) : Except EngineError Release :=
  match releases.find? (fun r => r.versions.any (fun v => v.version == s.replica_version)) with
  | some r => Except.ok r
  | none => Except.error (EngineError.panic ("version should exist in releases"))

/-- The full `subnets_releases` map (before `unique`): left-to-right, the
first panic aborts, mirroring eager iterator evaluation. -/
def subnets_releases_of (releases : List Release) : List Subnet → Except EngineError (List Release)
  | [] => Except.ok []
  | s :: rest =>
    match find_release_for releases s with
    | Except.error e => Except.error e
    | Except.ok r =>
      match subnets_releases_of releases rest with
      | Except.error e => Except.error e
      | Except.ok rs => Except.ok (r :: rs)

/-- The releases the fleet currently uses: for each subnet the first
catalog release containing its version, deduplicated keeping first
occurrences — the `subnets_releases` list of
`desired_rollout_release_version`, assuming every version is found. -/
def releases_in_use (subnets : List Subnet) (releases : List Release) : List Release :=
  uniqueList (subnets.filterMap (fun s =>
    releases.find? (fun r => r.versions.any (fun v => v.version == s.replica_version))))

/-- `itertools::Itertools::find_or_first` over a release's versions: the
first version pinning a prefix of the principal, else the version at
position 0 (`none` only when the version list is empty). -/
def find_or_first (newest_release : Release) (principal : String) : Option Version :=
  (newest_release.versions.find? (fun v =>
    v.subnets.any (fun vs => strStartsWith principal vs))).or newest_release.versions.head?

/-- One step of the per-subnet target map in
`desired_rollout_release_version`, panicking only when the version list
is empty (source message shortened to avoid quoting: "versions should
not be empty so it should return the first element if it doesn't match
anything"). -/
def target_pair_for (newest_release : Release) (s : Subnet) : Except EngineError (String × Version) :=
  match find_or_first newest_release s.principal with
  | some v => Except.ok (s.principal, v)
  | none => Except.error (EngineError.panic ("versions should not be empty"))

/-- The per-subnet half of the `DesiredReleaseVersion` struct literal:
evaluate `target_pair_for` over all subnets, left to right. -/
def subnet_targets_of (newest_release : Release) : List Subnet → Except EngineError (List (String × Version))
  | [] => Except.ok []
  | s :: rest =>
    match target_pair_for newest_release s with
    | Except.error e => Except.error e
    | Except.ok p =>
      match subnet_targets_of newest_release rest with
      | Except.error e => Except.error e
      | Except.ok ps => Except.ok (p :: ps)

/-- Source `desired_rollout_release_version`: resolve the active release
and the target version of every subnet and of the unassigned nodes. -/
def desired_rollout_release_version (subnets : List Subnet) (releases : List Release) :
    Except EngineError DesiredReleaseVersion :=
  match subnets_releases_of releases subnets with
  | Except.error e => Except.error e
  | Except.ok rs =>
    let subnets_releases := uniqueList rs
    if subnets_releases.length > 2 then
      Except.error (EngineError.panic ("more than two releases active"))
    else
      match releases.find? (fun r => subnets_releases.contains r) with
      | none => Except.error (EngineError.panic ("should find some release"))
      | some found_release =>
        let step : Except EngineError Release :=
          if subnets_releases.length = 1 then
            match releases.findIdx? (fun r => r == found_release) with
            | none => Except.error (EngineError.panic ("release should exist"))
            | some idx =>
              match releases.get? (idx - 1) with
              | none => Except.error (EngineError.panic ("index out of bounds"))
              | some r => Except.ok r
          else Except.ok found_release
        match step with
        | Except.error e => Except.error e
        | Except.ok newest_release =>
          match subnet_targets_of newest_release subnets with
          | Except.error e => Except.error e
          | Except.ok pairs =>
            match newest_release.versions.head? with
            | none => Except.error (EngineError.panic ("index out of bounds"))
            | some v0 =>
              Except.ok { subnets := btreeOfList pairs
                          unassigned_nodes := v0
                          release := newest_release }

/-- The per-prefix loop of `check_stage` (its non-unassigned half):
resolve the prefix in the desired map, resolve the fleet subnet, then
emit exactly one action for the prefix. -/
def check_stage_subnets (last_bake_status : List (String × Rat))
    (subnet_update_proposals : List SubnetUpdateProposal)
    (subnets : List Subnet) (desired_versions : DesiredReleaseVersion)
    (bake_time : Rat) : List String → Except EngineError (List SubnetAction)
  | [] => Except.ok []
  | subnet_short :: rest =>
    match desired_versions.subnets.find? (fun e => strStartsWith e.1 subnet_short) with
    | none => Except.error (EngineError.panic ("should find the subnet"))
    | some sv =>
      match subnets.find? (fun s => sv.1 == s.principal) with
      | none => Except.error (EngineError.panic ("subnet should exist"))
      | some subnet =>
        if subnet.replica_version = sv.2.version then
          match get_remaining_bake_time_for_subnet last_bake_status subnet bake_time with
          | Except.error e => Except.error e
          | Except.ok remaining =>
            if remaining ≠ 0 then
              match check_stage_subnets last_bake_status subnet_update_proposals
                  subnets desired_versions bake_time rest with
              | Except.error e => Except.error e
              | Except.ok acts =>
                Except.ok (SubnetAction.Baking subnet_short remaining :: acts)
            else
              match check_stage_subnets last_bake_status subnet_update_proposals
                  subnets desired_versions bake_time rest with
              | Except.error e => Except.error e
              | Except.ok acts => Except.ok (SubnetAction.Noop subnet_short :: acts)
        else
          match get_open_proposal_for_subnet subnet_update_proposals subnet sv.2.version with
          | some proposal =>
            match check_stage_subnets last_bake_status subnet_update_proposals
                subnets desired_versions bake_time rest with
            | Except.error e => Except.error e
            | Except.ok acts =>
              Except.ok (SubnetAction.PendingProposal subnet_short proposal.info.id :: acts)
          | none =>
            match check_stage_subnets last_bake_status subnet_update_proposals
                subnets desired_versions bake_time rest with
            | Except.error e => Except.error e
            | Except.ok acts =>
              Except.ok (SubnetAction.PlaceProposal false subnet.principal sv.2.version :: acts)

/-- Source `check_stage`: evaluate one stage against the resolved
targets. -/
def check_stage (last_bake_status : List (String × Rat))
    (subnet_update_proposals : List SubnetUpdateProposal)
    (unassigned_node_update_proposals : List UpdateUnassignedNodesProposal)
    (stage : Stage) (unassigned_version : String) (subnets : List Subnet)
    (desired_versions : DesiredReleaseVersion) : Except EngineError (List SubnetAction) :=
  if stage.update_unassigned_nodes then
    if unassigned_version ≠ desired_versions.unassigned_nodes.version then
      match unassigned_node_update_proposals.find? (fun proposal =>
          !proposal.info.executed &&
          proposal.payload.replica_version == some desired_versions.unassigned_nodes.version) with
      | none =>
        Except.ok [SubnetAction.PlaceProposal true "" desired_versions.unassigned_nodes.version]
      | some proposal =>
        Except.ok [SubnetAction.PendingProposal ("unassigned-version") proposal.info.id]
    else
      Except.ok [SubnetAction.Noop ("unassigned-nodes")]
  else
    check_stage_subnets last_bake_status subnet_update_proposals subnets
      desired_versions stage.bake_time stage.subnets

/-- The stage loop of `check_stages`, with the resolved targets already
computed. -/
def check_stages_go (last_bake_status : List (String × Rat))
    (subnet_update_proposals : List SubnetUpdateProposal)
    (unassigned_node_update_proposals : List UpdateUnassignedNodesProposal)
    (unassigned_version : String) (subnets : List Subnet) (now : Int)
    (desired_versions : DesiredReleaseVersion) : List Stage → Except EngineError (List SubnetAction)
  | [] => Except.ok []
  | stage :: rest =>
    if stage.wait_for_next_week && !week_passed desired_versions.release.date now then
      Except.ok (stage.subnets.map (fun s => SubnetAction.WaitForNextWeek s))
    else
      match check_stage last_bake_status subnet_update_proposals
          unassigned_node_update_proposals stage unassigned_version subnets
          desired_versions with
      | Except.error e => Except.error e
      | Except.ok stage_actions =>
        if stage_actions.all isNoop then
          check_stages_go last_bake_status subnet_update_proposals
            unassigned_node_update_proposals unassigned_version subnets now
            desired_versions rest
        else Except.ok stage_actions

/-- Source `check_stages`: the rollout driver (logger dropped). -/
def check_stages (last_bake_status : List (String × Rat))
    (subnet_update_proposals : List SubnetUpdateProposal)
    (unassigned_node_update_proposals : List UpdateUnassignedNodesProposal)
    (index : Index) (unassigned_version : String) (subnets : List Subnet)
    (now : Int) : Except EngineError (List SubnetAction) :=
  match desired_rollout_release_version subnets index.releases with
  | Except.error e => Except.error e
  | Except.ok desired_versions =>
    check_stages_go last_bake_status subnet_update_proposals
      unassigned_node_update_proposals unassigned_version subnets now
      desired_versions index.rollout.stages

/-- The wait-for-next-week gate condition tested at the top of the stage
loop in `check_stages`. -/
def gate_fired (now : Int) (desired_versions : DesiredReleaseVersion) (stage : Stage) : Bool :=
  stage.wait_for_next_week && !week_passed desired_versions.release.date now

/-- Evaluation of a single stage as performed by one iteration of the
`check_stages` loop: the wait gate first, then `check_stage`. -/
def stage_eval (last_bake_status : List (String × Rat))
    (subnet_update_proposals : List SubnetUpdateProposal)
    (unassigned_node_update_proposals : List UpdateUnassignedNodesProposal)
    (unassigned_version : String) (subnets : List Subnet) (now : Int)
    (desired_versions : DesiredReleaseVersion) (stage : Stage) :
    Except EngineError (List SubnetAction) :=
  if gate_fired now desired_versions stage then
    Except.ok (stage.subnets.map (fun s => SubnetAction.WaitForNextWeek s))
  else
    check_stage last_bake_status subnet_update_proposals
      unassigned_node_update_proposals stage unassigned_version subnets
      desired_versions

/-- A stage lets the loop continue past it: its wait gate does not fire
and its evaluation succeeds with only `Noop` actions. -/
def stage_passed (last_bake_status : List (String × Rat))
    (subnet_update_proposals : List SubnetUpdateProposal)
    (unassigned_node_update_proposals : List UpdateUnassignedNodesProposal)
    (unassigned_version : String) (subnets : List Subnet) (now : Int)
    (desired_versions : DesiredReleaseVersion) (stage : Stage) : Prop :=
  gate_fired now desired_versions stage = false ∧
  ∃ a, check_stage last_bake_status subnet_update_proposals
      unassigned_node_update_proposals stage unassigned_version subnets
      desired_versions = Except.ok a ∧ a.all isNoop = true

/-- The `(subnet principal, version)` targets of the non-unassigned
`PlaceProposal` actions of an action list, in order. -/
def subnetPlaceTargets (acts : List SubnetAction) : List (String × String) :=
  acts.filterMap fun a =>
    match a with
    | SubnetAction.PlaceProposal false s v => some (s, v)
    | _ => none

/-- The versions of the unassigned-nodes `PlaceProposal` actions of an
action list, in order. -/
def unassignedPlaceTargets (acts : List SubnetAction) : List String :=
  acts.filterMap fun a =>
    match a with
    | SubnetAction.PlaceProposal true _ v => some v
    | _ => none

/-- Relation between a first-run action and the corresponding second-run
action once open proposals for the first run's `PlaceProposal` targets
have been added: each `PlaceProposal` becomes a `PendingProposal` whose
id belongs to a matching open proposal of the extended list, every other
action is unchanged. -/
def act_rel (subnet_update_proposals : List SubnetUpdateProposal)
    (unassigned_node_update_proposals : List UpdateUnassignedNodesProposal) :
    SubnetAction → SubnetAction → Prop
  | SubnetAction.PlaceProposal false s v, b =>
    ∃ short id p, b = SubnetAction.PendingProposal short id ∧
      p ∈ subnet_update_proposals ∧ p.payload.subnet_id = s ∧
      p.payload.replica_version_id = v ∧ p.info.executed = false ∧ p.info.id = id
  | SubnetAction.PlaceProposal true _ v, b =>
    ∃ id p, b = SubnetAction.PendingProposal ("unassigned-version") id ∧
      p ∈ unassigned_node_update_proposals ∧ p.payload.replica_version = some v ∧
      p.info.executed = false ∧ p.info.id = id
  | a, b => b = a

/-- Modelled from the spec: the pause and skip-day gate of the driver.
The source implements it in `rollout-controller`'s `should_proceed.rs`,
which is not among the sources under verification (the tests of
`stage_checks.rs` refer to it); per spec §4.4 the engine returns the
empty action list when `rollout.pause` is set or when today's weekday is
listed in `rollout.skip_days`. -/
def should_proceed (rollout : Rollout) (now : Int) : Bool :=
  !rollout.pause && !(rollout.skip_days.contains (dateWeekday now))

/-- Modelled from the spec: the engine entry point combining the
`should_proceed` gate (missing from the sources, see `should_proceed`)
with `check_stages`. -/
def engine (last_bake_status : List (String × Rat))
    (subnet_update_proposals : List SubnetUpdateProposal)
    (unassigned_node_update_proposals : List UpdateUnassignedNodesProposal)
    (index : Index) (unassigned_version : String) (subnets : List Subnet)
    (now : Int) : Except EngineError (List SubnetAction) :=
  if should_proceed index.rollout now then
    check_stages last_bake_status subnet_update_proposals
      unassigned_node_update_proposals index unassigned_version subnets now
  else Except.ok []

/-- Claim C1 as stated, as a predicate on one input snapshot: any action
list returned by `check_stages` is either exactly the evaluation of the
earliest stage whose evaluation contains a non-`Noop` action (all earlier
stages evaluating to `Noop`-only lists), or the empty list with every
stage evaluating to a `Noop`-only list. -/
def c1_statement (last_bake_status : List (String × Rat))
    (subnet_update_proposals : List SubnetUpdateProposal)
    (unassigned_node_update_proposals : List UpdateUnassignedNodesProposal)
    (index : Index) (unassigned_version : String) (subnets : List Subnet)
    (now : Int) (desired_versions : DesiredReleaseVersion) : Prop :=
  ∀ acts, check_stages last_bake_status subnet_update_proposals
      unassigned_node_update_proposals index unassigned_version subnets now =
      Except.ok acts →
    (∃ pre st post, index.rollout.stages = pre ++ st :: post ∧
      (∀ s ∈ pre, ∃ a, stage_eval last_bake_status subnet_update_proposals
          unassigned_node_update_proposals unassigned_version subnets now
          desired_versions s = Except.ok a ∧ a.all isNoop = true) ∧
      stage_eval last_bake_status subnet_update_proposals
        unassigned_node_update_proposals unassigned_version subnets now
        desired_versions st = Except.ok acts ∧
      acts.all isNoop = false)
    ∨ ((∀ s ∈ index.rollout.stages, ∃ a,
          stage_eval last_bake_status subnet_update_proposals
            unassigned_node_update_proposals unassigned_version subnets now
            desired_versions s = Except.ok a ∧ a.all isNoop = true) ∧
        acts = [])

/-! Helper lemmas. -/

theorem ratSub_eq_sub (a b : Rat) : ratSub a b = a - b := by
  unfold ratSub
  exact (Rat.sub_def' a b).symm

theorem weekPassedGo_iff (fuel : Nat) (counter : Int) :
    weekPassedGo fuel counter = true ↔
      ∃ j : Nat, j < fuel ∧ dateWeekday (counter + j) = Weekday.Mon := by
  induction fuel generalizing counter with
  | zero => simp [weekPassedGo]
  | succ n ih =>
    rw [weekPassedGo]
    by_cases h : dateWeekday counter = Weekday.Mon
    · simp only [h, if_true, true_iff]
      exact ⟨0, Nat.succ_pos n, by simpa using h⟩
    · simp only [h, if_false, ih]
      constructor
      · rintro ⟨j, hj, hm⟩
        refine ⟨j + 1, by omega, ?_⟩
        have : counter + 1 + (j : Int) = counter + ((j : Int) + 1) := by ring
        rw [this] at hm
        simpa using hm
      · rintro ⟨j, hj, hm⟩
        cases j with
        | zero => simp at hm; exact absurd hm h
        | succ k =>
          refine ⟨k, by omega, ?_⟩
          have : counter + ((k : Int) + 1) = counter + 1 + (k : Int) := by ring
          rw [show ((Nat.succ k : Nat) : Int) = (k : Int) + 1 by omega, this] at hm
          exact hm

/-- C6: `week_passed(release_start, today)` holds exactly when the
half-open interval `(release_start, today]` contains a Monday. -/
theorem c6_week_passed_iff_monday_in_interval (release_start now : Int) :
    week_passed release_start now = true ↔
      ∃ d : Int, release_start < d ∧ d ≤ now ∧ dateWeekday d = Weekday.Mon := by
  unfold week_passed
  rw [weekPassedGo_iff]
  constructor
  · rintro ⟨j, hj, hm⟩
    refine ⟨release_start + 1 + j, by omega, by omega, hm⟩
  · rintro ⟨d, h1, h2, hm⟩
    refine ⟨(d - release_start - 1).toNat, by omega, ?_⟩
    have : release_start + 1 + ((d - release_start - 1).toNat : Int) = d := by omega
    rw [this]
    exact hm

theorem check_stages_go_append (last_bake_status : List (String × Rat))
    (subnet_update_proposals : List SubnetUpdateProposal)
    (unassigned_node_update_proposals : List UpdateUnassignedNodesProposal)
    (unassigned_version : String) (subnets : List Subnet) (now : Int)
    (desired_versions : DesiredReleaseVersion) (pre rest : List Stage)
    (h : ∀ s ∈ pre, stage_passed last_bake_status subnet_update_proposals
        unassigned_node_update_proposals unassigned_version subnets now
        desired_versions s) :
    check_stages_go last_bake_status subnet_update_proposals
        unassigned_node_update_proposals unassigned_version subnets now
        desired_versions (pre ++ rest) =
      check_stages_go last_bake_status subnet_update_proposals
        unassigned_node_update_proposals unassigned_version subnets now
        desired_versions rest := by
  induction pre with
  | nil => rfl
  | cons s pre ih =>
    obtain ⟨hg, a, ha, hnoop⟩ := h s (List.mem_cons_self s pre)
    unfold gate_fired at hg
    rw [List.cons_append]
    simp only [check_stages_go, hg, Bool.false_eq_true, if_false, ha, hnoop, if_true]
    exact ih (fun x hx => h x (List.mem_cons_of_mem s hx))

/-- C4: the bake clock errors (with a returned error value) when the
telemetry map has no sample for the subnet, returns `0` when the observed
value reaches the stage requirement and the difference otherwise; the
missing-sample error makes the stage evaluation fail and is fatal to the
whole `check_stages` call. -/
theorem c4_bake_clock :
    (∀ (last_bake_status : List (String × Rat)) (subnet : Subnet) (bt : Rat),
      last_bake_status.lookup subnet.principal = none →
      get_remaining_bake_time_for_subnet last_bake_status subnet bt =
        Except.error (EngineError.err
          ("Subnet with principal " ++ subnet.principal ++ " not found")))
    ∧ (∀ (last_bake_status : List (String × Rat)) (subnet : Subnet) (bt o : Rat),
      last_bake_status.lookup subnet.principal = some o →
      get_remaining_bake_time_for_subnet last_bake_status subnet bt =
        Except.ok (if bt ≤ o then 0 else bt - o))
    ∧ (∀ (last_bake_status : List (String × Rat))
        (P : List SubnetUpdateProposal) (U : List UpdateUnassignedNodesProposal)
        (uv : String) (subnets : List Subnet) (dv : DesiredReleaseVersion)
        (short : String) (rest : List String) (bt : Rat) (w : Bool)
        (sv : String × Version) (fs : Subnet),
      dv.subnets.find? (fun e => strStartsWith e.1 short) = some sv →
      subnets.find? (fun s => sv.1 == s.principal) = some fs →
      fs.replica_version = sv.2.version →
      last_bake_status.lookup fs.principal = none →
      check_stage last_bake_status P U ⟨short :: rest, bt, w, false⟩ uv subnets dv =
        Except.error (EngineError.err
          ("Subnet with principal " ++ fs.principal ++ " not found")))
    ∧ (∀ (last_bake_status : List (String × Rat))
        (P : List SubnetUpdateProposal) (U : List UpdateUnassignedNodesProposal)
        (index : Index) (uv : String) (subnets : List Subnet) (now : Int)
        (dv : DesiredReleaseVersion) (pre : List Stage) (st : Stage)
        (post : List Stage) (e : EngineError),
      desired_rollout_release_version subnets index.releases = Except.ok dv →
      index.rollout.stages = pre ++ st :: post →
      (∀ s ∈ pre, stage_passed last_bake_status P U uv subnets now dv s) →
      gate_fired now dv st = false →
      check_stage last_bake_status P U st uv subnets dv = Except.error e →
      check_stages last_bake_status P U index uv subnets now = Except.error e) := by
  refine ⟨?_, ?_, ?_, ?_⟩
  · intro bake subnet bt h
    simp only [get_remaining_bake_time_for_subnet, h]
  · intro bake subnet bt o h
    simp only [get_remaining_bake_time_for_subnet, h]
    by_cases hle : bt ≤ o
    · simp only [if_pos hle]
    · simp only [if_neg hle, ratSub_eq_sub]
  · intro bake P U uv subnets dv short rest bt w sv fs h1 h2 h3 h4
    simp only [check_stage, check_stage_subnets, Bool.false_eq_true, if_false, h1, h2, h3,
      if_pos, get_remaining_bake_time_for_subnet, h4]
  · intro bake P U index uv subnets now dv pre st post e hdv hst hpre hgate hcs
    unfold gate_fired at hgate
    simp only [check_stages, hdv, hst]
    rw [check_stages_go_append bake P U uv subnets now dv pre (st :: post) hpre]
    simp only [check_stages_go, hgate, Bool.false_eq_true, if_false, hcs]

/-- Witness for C4 at concrete inputs: a fleet of one subnet on the
desired version with an empty telemetry map. -/
theorem c4_bake_clock_witness :
    get_remaining_bake_time_for_subnet [] ⟨"aaaaa-one", "v2"⟩ 10 =
      Except.error (EngineError.err
        ("Subnet with principal " ++ "aaaaa-one" ++ " not found")) ∧
    get_remaining_bake_time_for_subnet [("aaaaa-one", 4)] ⟨"aaaaa-one", "v2"⟩ 10 =
      Except.ok (if (10 : Rat) ≤ 4 then 0 else 10 - 4) ∧
    get_remaining_bake_time_for_subnet [("aaaaa-one", 11)] ⟨"aaaaa-one", "v2"⟩ 10 =
      Except.ok (if (10 : Rat) ≤ 11 then 0 else 10 - 11) ∧
    check_stages [] [] []
        ⟨⟨false, [], [⟨["aaaaa"], 10, false, false⟩]⟩,
          [⟨"rc-b", [⟨"b", "v2", []⟩], 0⟩]⟩ "v2"
        [⟨"aaaaa-one", "v2"⟩] 5 =
      Except.error (EngineError.err
        ("Subnet with principal " ++ "aaaaa-one" ++ " not found")) := by
  refine ⟨?_, ?_, ?_, ?_⟩
  · exact c4_bake_clock.1 [] ⟨"aaaaa-one", "v2"⟩ 10 (by decide)
  · exact c4_bake_clock.2.1 [("aaaaa-one", 4)] ⟨"aaaaa-one", "v2"⟩ 10 4 (by decide)
  · exact c4_bake_clock.2.1 [("aaaaa-one", 11)] ⟨"aaaaa-one", "v2"⟩ 10 11 (by decide)
  · refine c4_bake_clock.2.2.2 [] [] []
      ⟨⟨false, [], [⟨["aaaaa"], 10, false, false⟩]⟩,
        [⟨"rc-b", [⟨"b", "v2", []⟩], 0⟩]⟩ "v2"
      [⟨"aaaaa-one", "v2"⟩] 5
      ⟨[("aaaaa-one", ⟨"b", "v2", []⟩)], ⟨"b", "v2", []⟩, ⟨"rc-b", [⟨"b", "v2", []⟩], 0⟩⟩
      [] ⟨["aaaaa"], 10, false, false⟩ [] _ (by decide) rfl (by simp) (by decide) ?_
    exact c4_bake_clock.2.2.1 [] [] [] "v2" [⟨"aaaaa-one", "v2"⟩]
      ⟨[("aaaaa-one", ⟨"b", "v2", []⟩)], ⟨"b", "v2", []⟩, ⟨"rc-b", [⟨"b", "v2", []⟩], 0⟩⟩
      "aaaaa" [] 10 false ("aaaaa-one", ⟨"b", "v2", []⟩) ⟨"aaaaa-one", "v2"⟩
      (by decide) (by decide) rfl (by decide)

/-- C9: with the spec-modelled `should_proceed` gate in front of
`check_stages` (the gate's source, `should_proceed.rs`, is not among the
verified sources), a paused rollout or a skip day makes the engine return
the empty action list. -/
theorem c9_pause_and_skip_days (last_bake_status : List (String × Rat))
    (P : List SubnetUpdateProposal) (U : List UpdateUnassignedNodesProposal)
    (index : Index) (uv : String) (subnets : List Subnet) (now : Int) :
    (index.rollout.pause = true →
      engine last_bake_status P U index uv subnets now = Except.ok []) ∧
    (dateWeekday now ∈ index.rollout.skip_days →
      engine last_bake_status P U index uv subnets now = Except.ok []) := by
  constructor
  · intro h
    simp only [engine, should_proceed, h, Bool.not_true, Bool.false_and, Bool.false_eq_true,
      if_false]
  · intro h
    have hc : index.rollout.skip_days.contains (dateWeekday now) = true :=
      List.elem_eq_true_of_mem h
    simp only [engine, should_proceed, hc, Bool.not_true, Bool.and_false, Bool.false_eq_true,
      if_false]

/-- Witness for C9: a paused plan, and a plan whose skip days contain the
current weekday. -/
theorem c9_pause_and_skip_days_witness :
    engine [] [] [] ⟨⟨true, [], []⟩, [⟨"rc-b", [⟨"b", "v2", []⟩], 0⟩]⟩ "v2" [] 5 =
      Except.ok [] ∧
    engine [] [] [] ⟨⟨false, [Weekday.Sat], []⟩, [⟨"rc-b", [⟨"b", "v2", []⟩], 0⟩]⟩ "v2" [] 6 =
      Except.ok [] :=
  ⟨(c9_pause_and_skip_days [] [] [] ⟨⟨true, [], []⟩, [⟨"rc-b", [⟨"b", "v2", []⟩], 0⟩]⟩
      "v2" [] 5).1 rfl,
   (c9_pause_and_skip_days [] [] [] ⟨⟨false, [Weekday.Sat], []⟩,
      [⟨"rc-b", [⟨"b", "v2", []⟩], 0⟩]⟩ "v2" [] 6).2 (by decide)⟩

theorem subnets_releases_of_ok (releases : List Release) (subnets : List Subnet)
    (h : ∀ s ∈ subnets, (releases.find? (fun r =>
        r.versions.any (fun v => v.version == s.replica_version))).isSome) :
    subnets_releases_of releases subnets = Except.ok (subnets.filterMap (fun s =>
      releases.find? (fun r => r.versions.any (fun v => v.version == s.replica_version)))) := by
  induction subnets with
  | nil => rfl
  | cons s rest ih =>
    obtain ⟨r, hr⟩ := Option.isSome_iff_exists.mp (h s (List.mem_cons_self s rest))
    simp only [subnets_releases_of, find_release_for, hr, List.filterMap_cons,
      ih (fun x hx => h x (List.mem_cons_of_mem s hx))]

theorem subnets_releases_of_err (releases : List Release) (subnets : List Subnet)
    (s : Subnet) (hs : s ∈ subnets)
    (h : releases.find? (fun r =>
        r.versions.any (fun v => v.version == s.replica_version)) = none) :
    subnets_releases_of releases subnets =
      Except.error (EngineError.panic ("version should exist in releases")) := by
  induction subnets with
  | nil => cases hs
  | cons a rest ih =>
    rcases List.mem_cons.mp hs with heq | hmem
    · subst heq
      simp only [subnets_releases_of, find_release_for, h]
    · cases hfind : releases.find? (fun r =>
          r.versions.any (fun v => v.version == a.replica_version)) with
      | none => simp only [subnets_releases_of, find_release_for, hfind]
      | some r => simp only [subnets_releases_of, find_release_for, hfind, ih hmem]

/-- C3 counterexample: a fleet spanning three releases.  `check_stages`
fails with the panic-channel error carrying the source panic message
`more than two releases active`; in particular the failure is not an
error value of the returned-error channel, and no `TooManyActiveReleases`
error value exists in the code. -/
theorem c3_counterexample :
    (uniqueList ([(⟨"aaaaa-one", "v3"⟩ : Subnet), ⟨"bbbbb-one", "v2"⟩,
        ⟨"ccccc-one", "v1"⟩].filterMap (fun s =>
        [(⟨"rc-c", [⟨"c", "v3", []⟩], 0⟩ : Release), ⟨"rc-b", [⟨"b", "v2", []⟩], 0⟩,
          ⟨"rc-a", [⟨"a", "v1", []⟩], 0⟩].find? (fun r =>
          r.versions.any (fun v => v.version == s.replica_version))))).length = 3 ∧
    check_stages [] [] []
        ⟨⟨false, [], [⟨["aaaaa"], 10, false, false⟩]⟩,
          [⟨"rc-c", [⟨"c", "v3", []⟩], 0⟩, ⟨"rc-b", [⟨"b", "v2", []⟩], 0⟩,
            ⟨"rc-a", [⟨"a", "v1", []⟩], 0⟩]⟩ "v3"
        [⟨"aaaaa-one", "v3"⟩, ⟨"bbbbb-one", "v2"⟩, ⟨"ccccc-one", "v1"⟩] 5 =
      Except.error (EngineError.panic ("more than two releases active")) ∧
    (∀ m, check_stages [] [] []
        ⟨⟨false, [], [⟨["aaaaa"], 10, false, false⟩]⟩,
          [⟨"rc-c", [⟨"c", "v3", []⟩], 0⟩, ⟨"rc-b", [⟨"b", "v2", []⟩], 0⟩,
            ⟨"rc-a", [⟨"a", "v1", []⟩], 0⟩]⟩ "v3"
        [⟨"aaaaa-one", "v3"⟩, ⟨"bbbbb-one", "v2"⟩, ⟨"ccccc-one", "v1"⟩] 5 ≠
      Except.error (EngineError.err m)) := by
  refine ⟨by decide, by decide, fun m hm => ?_⟩
  have h1 : check_stages [] [] []
      ⟨⟨false, [], [⟨["aaaaa"], 10, false, false⟩]⟩,
        [⟨"rc-c", [⟨"c", "v3", []⟩], 0⟩, ⟨"rc-b", [⟨"b", "v2", []⟩], 0⟩,
          ⟨"rc-a", [⟨"a", "v1", []⟩], 0⟩]⟩ "v3"
      [⟨"aaaaa-one", "v3"⟩, ⟨"bbbbb-one", "v2"⟩, ⟨"ccccc-one", "v1"⟩] 5 =
      Except.error (EngineError.panic ("more than two releases active")) := by decide
  rw [h1] at hm
  exact EngineError.noConfusion (Except.error.inj hm)

/-- C3 amended: whenever the fleet's current versions span more than two
distinct catalog releases (each version occurring in some release), the
engine fails by panicking with `more than two releases active` — a
thrown panic rather than an error value returned to the caller — and no
actions are emitted. -/
theorem c3_amended (last_bake_status : List (String × Rat))
    (P : List SubnetUpdateProposal) (U : List UpdateUnassignedNodesProposal)
    (index : Index) (uv : String) (subnets : List Subnet) (now : Int)
    (h1 : ∀ s ∈ subnets, (index.releases.find? (fun r =>
        r.versions.any (fun v => v.version == s.replica_version))).isSome)
    (h2 : (uniqueList (subnets.filterMap (fun s => index.releases.find? (fun r =>
        r.versions.any (fun v => v.version == s.replica_version))))).length > 2) :
    check_stages last_bake_status P U index uv subnets now =
      Except.error (EngineError.panic ("more than two releases active")) := by
  simp only [check_stages, desired_rollout_release_version,
    subnets_releases_of_ok index.releases subnets h1]
  rw [if_pos h2]

/-- Witness for the amended C3 at the three-release fleet. -/
theorem c3_amended_witness :
    check_stages [] [] []
        ⟨⟨false, [], [⟨["aaaaa"], 10, false, false⟩]⟩,
          [⟨"rc-c", [⟨"c", "v3", []⟩], 0⟩, ⟨"rc-b", [⟨"b", "v2", []⟩], 0⟩,
            ⟨"rc-a", [⟨"a", "v1", []⟩], 0⟩]⟩ "v3"
        [⟨"aaaaa-one", "v3"⟩, ⟨"bbbbb-one", "v2"⟩, ⟨"ccccc-one", "v1"⟩] 5 =
      Except.error (EngineError.panic ("more than two releases active")) :=
  c3_amended [] [] []
    ⟨⟨false, [], [⟨["aaaaa"], 10, false, false⟩]⟩,
      [⟨"rc-c", [⟨"c", "v3", []⟩], 0⟩, ⟨"rc-b", [⟨"b", "v2", []⟩], 0⟩,
        ⟨"rc-a", [⟨"a", "v1", []⟩], 0⟩]⟩ "v3"
    [⟨"aaaaa-one", "v3"⟩, ⟨"bbbbb-one", "v2"⟩, ⟨"ccccc-one", "v1"⟩] 5
    (by decide) (by decide)

/-- C10: `check_stages` is total only under the precondition that the
catalog is non-empty and every subnet's version occurs in some release: a
subnet whose version occurs in no release makes the whole call fail with
the panic-channel `version should exist in releases` (never a
returned-error value), an empty catalog always panics, and under the
precondition the release-lookup step of `desired_rollout_release_version`
succeeds, so those panic branches are unreachable. -/
theorem c10_totality_precondition :
    (∀ (last_bake_status : List (String × Rat)) (P : List SubnetUpdateProposal)
        (U : List UpdateUnassignedNodesProposal) (index : Index) (uv : String)
        (subnets : List Subnet) (now : Int) (s : Subnet),
      s ∈ subnets →
      (∀ r ∈ index.releases, ∀ v ∈ r.versions, v.version ≠ s.replica_version) →
      check_stages last_bake_status P U index uv subnets now =
        Except.error (EngineError.panic ("version should exist in releases")))
    ∧ (∀ (last_bake_status : List (String × Rat)) (P : List SubnetUpdateProposal)
        (U : List UpdateUnassignedNodesProposal) (index : Index) (uv : String)
        (subnets : List Subnet) (now : Int),
      index.releases = [] →
      ∃ m, check_stages last_bake_status P U index uv subnets now =
        Except.error (EngineError.panic m))
    ∧ (∀ (releases : List Release) (subnets : List Subnet),
      releases ≠ [] →
      (∀ s ∈ subnets, ∃ r ∈ releases, ∃ v ∈ r.versions, v.version = s.replica_version) →
      ∃ rs, subnets_releases_of releases subnets = Except.ok rs) := by
  refine ⟨?_, ?_, ?_⟩
  · intro bake P U index uv subnets now s hs hnone
    have hfind : index.releases.find? (fun r =>
        r.versions.any (fun v => v.version == s.replica_version)) = none := by
      rw [List.find?_eq_none]
      intro r hr hany
      obtain ⟨v, hv, hbeq⟩ := List.any_eq_true.mp hany
      exact hnone r hr v hv (eq_of_beq hbeq)
    simp only [check_stages, desired_rollout_release_version,
      subnets_releases_of_err index.releases subnets s hs hfind]
  · intro bake P U index uv subnets now h
    cases subnets with
    | nil =>
      refine ⟨"should find some release", ?_⟩
      simp only [check_stages, h]
      rfl
    | cons s rest =>
      refine ⟨"version should exist in releases", ?_⟩
      simp only [check_stages, h, desired_rollout_release_version,
        subnets_releases_of_err [] (s :: rest) s (List.mem_cons_self s rest) rfl]
  · intro releases subnets _ h
    induction subnets with
    | nil => exact ⟨[], rfl⟩
    | cons s rest ih =>
      obtain ⟨r, hr, v, hv, hveq⟩ := h s (List.mem_cons_self s rest)
      have hfind : (releases.find? (fun r =>
          r.versions.any (fun v => v.version == s.replica_version))).isSome := by
        rw [List.find?_isSome]
        exact ⟨r, hr, List.any_eq_true.mpr ⟨v, hv, beq_iff_eq.mpr hveq⟩⟩
      obtain ⟨r', hr'⟩ := Option.isSome_iff_exists.mp hfind
      obtain ⟨rs, hrs⟩ := ih (fun x hx => h x (List.mem_cons_of_mem s hx))
      exact ⟨r' :: rs, by simp only [subnets_releases_of, find_release_for, hr', hrs]⟩

/-- Witness for C10: a subnet on a version missing from the catalog, an
empty catalog, and a well-covered fleet. -/
theorem c10_totality_precondition_witness :
    check_stages [] [] [] ⟨⟨false, [], []⟩, [⟨"rc-b", [⟨"b", "v2", []⟩], 0⟩]⟩ "v2"
        [⟨"aaaaa-one", "v9"⟩] 5 =
      Except.error (EngineError.panic ("version should exist in releases")) ∧
    (∃ m, check_stages [] [] [] ⟨⟨false, [], []⟩, []⟩ "v2" [⟨"aaaaa-one", "v9"⟩] 5 =
      Except.error (EngineError.panic m)) ∧
    (∃ rs, subnets_releases_of [⟨"rc-b", [⟨"b", "v2", []⟩], 0⟩] [⟨"aaaaa-one", "v2"⟩] =
      Except.ok rs) :=
  ⟨c10_totality_precondition.1 [] [] [] ⟨⟨false, [], []⟩, [⟨"rc-b", [⟨"b", "v2", []⟩], 0⟩]⟩
      "v2" [⟨"aaaaa-one", "v9"⟩] 5 ⟨"aaaaa-one", "v9"⟩ (by decide) (by decide),
   c10_totality_precondition.2.1 [] [] [] ⟨⟨false, [], []⟩, []⟩ "v2" [⟨"aaaaa-one", "v9"⟩] 5 rfl,
   c10_totality_precondition.2.2 [⟨"rc-b", [⟨"b", "v2", []⟩], 0⟩] [⟨"aaaaa-one", "v2"⟩]
     (by decide) (by decide)⟩

/-- C5: when the driver reaches a stage (every earlier stage passing)
whose `wait_for_next_week` flag is set while `week_passed` is false for
the active release's start date, `check_stages` returns exactly one
`WaitForNextWeek` action per subnet prefix of that stage — the per-subnet
evaluation of the stage is not consulted, so this holds even when the
stage would otherwise emit only `Noop` actions. -/
theorem c5_wait_for_next_week (last_bake_status : List (String × Rat))
    (P : List SubnetUpdateProposal) (U : List UpdateUnassignedNodesProposal)
    (index : Index) (uv : String) (subnets : List Subnet) (now : Int)
    (dv : DesiredReleaseVersion) (pre : List Stage) (st : Stage) (post : List Stage)
    (hdv : desired_rollout_release_version subnets index.releases = Except.ok dv)
    (hst : index.rollout.stages = pre ++ st :: post)
    (hpre : ∀ s ∈ pre, stage_passed last_bake_status P U uv subnets now dv s)
    (hw : st.wait_for_next_week = true)
    (hwp : week_passed dv.release.date now = false) :
    check_stages last_bake_status P U index uv subnets now =
      Except.ok (st.subnets.map (fun s => SubnetAction.WaitForNextWeek s)) := by
  simp only [check_stages, hdv, hst]
  rw [check_stages_go_append last_bake_status P U uv subnets now dv pre (st :: post) hpre]
  simp only [check_stages_go, hw, hwp, Bool.not_false, Bool.true_and, if_true]

/-- Witness for C5: a single wait-gated stage whose only subnet is
already on the target version, on the release start date itself. -/
theorem c5_wait_for_next_week_witness :
    check_stages [] [] []
        ⟨⟨false, [], [⟨["aaaaa"], 10, true, false⟩]⟩, [⟨"rc-b", [⟨"b", "v2", []⟩], 5⟩]⟩
        "v2" [⟨"aaaaa-one", "v2"⟩] 5 =
      Except.ok [SubnetAction.WaitForNextWeek "aaaaa"] :=
  c5_wait_for_next_week [] [] []
    ⟨⟨false, [], [⟨["aaaaa"], 10, true, false⟩]⟩, [⟨"rc-b", [⟨"b", "v2", []⟩], 5⟩]⟩
    "v2" [⟨"aaaaa-one", "v2"⟩] 5
    ⟨[("aaaaa-one", ⟨"b", "v2", []⟩)], ⟨"b", "v2", []⟩, ⟨"rc-b", [⟨"b", "v2", []⟩], 5⟩⟩
    [] ⟨["aaaaa"], 10, true, false⟩ []
    (by decide) rfl (by simp) rfl (by decide)

/-- C8 counterexample: the stage prefix `aaa` is shorter than 5
characters and matches two fleet subnets, yet `check_stages` produces a
`PlaceProposal` for the first matching subnet instead of rejecting the
plan with a returned error. -/
theorem c8_counterexample :
    ("aaa".length < 5) ∧
    strStartsWith "aaaaa-one" "aaa" = true ∧
    strStartsWith "aaaaa-two" "aaa" = true ∧
    check_stages [] [] []
        ⟨⟨false, [], [⟨["aaa"], 10, false, false⟩]⟩,
          [⟨"rc-b", [⟨"b", "v2", []⟩], 0⟩, ⟨"rc-a", [⟨"a", "v1", []⟩], 0⟩]⟩ "v2"
        [⟨"aaaaa-one", "v1"⟩, ⟨"aaaaa-two", "v1"⟩] 5 =
      Except.ok [SubnetAction.PlaceProposal false "aaaaa-one" "v2"] := by
  refine ⟨by decide, by decide, by decide, by decide⟩

/-- C8 amended: the engine does not validate stage prefixes.  A prefix
matching no entry of the desired-version map makes the stage evaluation
panic with `should find the subnet` (no returned error value); a prefix
shorter than 5 characters that matches several entries is not rejected —
the first matching entry of the map is used and a normal action is
produced. -/
theorem c8_amended :
    (∀ (last_bake_status : List (String × Rat)) (P : List SubnetUpdateProposal)
        (U : List UpdateUnassignedNodesProposal) (uv : String) (subnets : List Subnet)
        (dv : DesiredReleaseVersion) (short : String) (rest : List String)
        (bt : Rat) (w : Bool),
      dv.subnets.find? (fun e => strStartsWith e.1 short) = none →
      check_stage last_bake_status P U ⟨short :: rest, bt, w, false⟩ uv subnets dv =
        Except.error (EngineError.panic ("should find the subnet")))
    ∧ (∀ (last_bake_status : List (String × Rat)) (P : List SubnetUpdateProposal)
        (U : List UpdateUnassignedNodesProposal) (uv : String) (subnets : List Subnet)
        (dv : DesiredReleaseVersion) (short : String) (bt : Rat) (w : Bool)
        (sv : String × Version) (fs : Subnet),
      dv.subnets.find? (fun e => strStartsWith e.1 short) = some sv →
      (∃ e ∈ dv.subnets, e ≠ sv ∧ strStartsWith e.1 short = true) →
      short.length < 5 →
      subnets.find? (fun x => sv.1 == x.principal) = some fs →
      fs.replica_version ≠ sv.2.version →
      get_open_proposal_for_subnet P fs sv.2.version = none →
      check_stage last_bake_status P U ⟨[short], bt, w, false⟩ uv subnets dv =
        Except.ok [SubnetAction.PlaceProposal false fs.principal sv.2.version]) := by
  constructor
  · intro bake P U uv subnets dv short rest bt w h
    simp only [check_stage, Bool.false_eq_true, if_false, check_stage_subnets, h]
  · intro bake P U uv subnets dv short bt w sv fs h1 _ _ h4 h5 h6
    simp only [check_stage, Bool.false_eq_true, if_false, check_stage_subnets, h1, h4,
      if_neg h5, h6]

/-- Witness for the amended C8: a prefix with no match, and the short
ambiguous prefix of the counterexample. -/
theorem c8_amended_witness :
    check_stage [] [] [] ⟨["zzzzz"], 10, false, false⟩ "v2" [⟨"aaaaa-one", "v1"⟩]
        ⟨[("aaaaa-one", ⟨"b", "v2", []⟩)], ⟨"b", "v2", []⟩, ⟨"rc-b", [⟨"b", "v2", []⟩], 0⟩⟩ =
      Except.error (EngineError.panic ("should find the subnet")) ∧
    check_stage [] [] [] ⟨["aaa"], 10, false, false⟩ "v2"
        [⟨"aaaaa-one", "v1"⟩, ⟨"aaaaa-two", "v1"⟩]
        ⟨[("aaaaa-one", ⟨"b", "v2", []⟩), ("aaaaa-two", ⟨"b", "v2", []⟩)],
          ⟨"b", "v2", []⟩, ⟨"rc-b", [⟨"b", "v2", []⟩], 0⟩⟩ =
      Except.ok [SubnetAction.PlaceProposal false "aaaaa-one" "v2"] :=
  ⟨c8_amended.1 [] [] [] "v2" [⟨"aaaaa-one", "v1"⟩]
      ⟨[("aaaaa-one", ⟨"b", "v2", []⟩)], ⟨"b", "v2", []⟩, ⟨"rc-b", [⟨"b", "v2", []⟩], 0⟩⟩
      "zzzzz" [] 10 false (by decide),
   c8_amended.2 [] [] [] "v2" [⟨"aaaaa-one", "v1"⟩, ⟨"aaaaa-two", "v1"⟩]
      ⟨[("aaaaa-one", ⟨"b", "v2", []⟩), ("aaaaa-two", ⟨"b", "v2", []⟩)],
        ⟨"b", "v2", []⟩, ⟨"rc-b", [⟨"b", "v2", []⟩], 0⟩⟩
      "aaa" 10 false ("aaaaa-one", ⟨"b", "v2", []⟩) ⟨"aaaaa-one", "v1"⟩
      (by decide)
      ⟨("aaaaa-two", ⟨"b", "v2", []⟩), by decide, by decide, by decide⟩
      (by decide) (by decide) (by decide) rfl⟩

theorem check_stages_go_ok (last_bake_status : List (String × Rat))
    (P : List SubnetUpdateProposal) (U : List UpdateUnassignedNodesProposal)
    (uv : String) (subnets : List Subnet) (now : Int) (dv : DesiredReleaseVersion)
    (stages : List Stage) (acts : List SubnetAction)
    (h : check_stages_go last_bake_status P U uv subnets now dv stages = Except.ok acts) :
    (∃ pre st post, stages = pre ++ st :: post ∧
      (∀ s ∈ pre, stage_passed last_bake_status P U uv subnets now dv s) ∧
      ((gate_fired now dv st = true ∧
          acts = st.subnets.map (fun s => SubnetAction.WaitForNextWeek s)) ∨
        (gate_fired now dv st = false ∧
          check_stage last_bake_status P U st uv subnets dv = Except.ok acts ∧
          acts.all isNoop = false)))
    ∨ ((∀ s ∈ stages, stage_passed last_bake_status P U uv subnets now dv s) ∧
        acts = []) := by
  induction stages with
  | nil =>
    right
    exact ⟨by simp, (Except.ok.inj h).symm⟩
  | cons st rest ih =>
    unfold check_stages_go at h
    by_cases hg : (st.wait_for_next_week && !week_passed dv.release.date now) = true
    · simp only [hg, if_true] at h
      left
      exact ⟨[], st, rest, rfl, by simp, Or.inl ⟨hg, (Except.ok.inj h).symm⟩⟩
    · rw [Bool.not_eq_true] at hg
      simp only [hg, Bool.false_eq_true, if_false] at h
      cases hcs : check_stage last_bake_status P U st uv subnets dv with
      | error e => rw [hcs] at h; cases h
      | ok a =>
        rw [hcs] at h
        by_cases hnoop : a.all isNoop = true
        · simp only [hnoop, if_true] at h
          rcases ih h with ⟨pre, st', post, heq, hpre, hres⟩ | ⟨hall, hacts⟩
          · left
            refine ⟨st :: pre, st', post, by rw [heq, List.cons_append], ?_, hres⟩
            intro s hs
            rcases List.mem_cons.mp hs with heq' | hmem
            · subst heq'; exact ⟨hg, a, hcs, hnoop⟩
            · exact hpre s hmem
          · right
            refine ⟨?_, hacts⟩
            intro s hs
            rcases List.mem_cons.mp hs with heq' | hmem
            · subst heq'; exact ⟨hg, a, hcs, hnoop⟩
            · exact hall s hmem
        · rw [Bool.not_eq_true] at hnoop
          simp only [hnoop, Bool.false_eq_true, if_false] at h
          obtain rfl := Except.ok.inj h
          left
          exact ⟨[], st, rest, rfl, by simp, Or.inr ⟨hg, hcs, hnoop⟩⟩

/-- C1 counterexample: a wait-gated stage with an empty subnet list makes
`check_stages` return the empty list even though a later stage's
evaluation contains a non-`Noop` action, so the output is neither the
evaluation of the earliest non-`Noop` stage nor the terminal empty list
of an all-`Noop` plan. -/
theorem c1_counterexample :
    ¬ c1_statement [] [] []
        ⟨⟨false, [], [⟨[], 10, true, false⟩, ⟨["aaaaa"], 10, false, false⟩]⟩,
          [⟨"rc-b", [⟨"b", "v2", []⟩], 5⟩, ⟨"rc-a", [⟨"a", "v1", []⟩], 0⟩]⟩
        "v2" [⟨"aaaaa-one", "v1"⟩] 5
        ⟨[("aaaaa-one", ⟨"b", "v2", []⟩)], ⟨"b", "v2", []⟩,
          ⟨"rc-b", [⟨"b", "v2", []⟩], 5⟩⟩ := by
  intro h
  rcases h [] (by decide) with ⟨pre, st, post, heq, hpre, heval, hnoop⟩ | ⟨hall, -⟩
  · exact absurd hnoop (by decide)
  · obtain ⟨a, ha, hnoop⟩ := hall ⟨["aaaaa"], 10, false, false⟩ (by decide)
    have hv : stage_eval [] [] [] "v2" [⟨"aaaaa-one", "v1"⟩] 5
        ⟨[("aaaaa-one", ⟨"b", "v2", []⟩)], ⟨"b", "v2", []⟩,
          ⟨"rc-b", [⟨"b", "v2", []⟩], 5⟩⟩ ⟨["aaaaa"], 10, false, false⟩ =
        Except.ok [SubnetAction.PlaceProposal false "aaaaa-one" "v2"] := by decide
    rw [hv] at ha
    obtain rfl := Except.ok.inj ha
    exact absurd hnoop (by decide)

/-- C1 amended: any action list returned by `check_stages` is the
evaluation of the earliest stage that is either wait-gated (the
`wait_for_next_week` flag set with the week not yet passed — in which
case the list is the stage's `WaitForNextWeek` list, which is empty when
the stage lists no subnets, even if later stages are incomplete) or whose
evaluation contains a non-`Noop` action, all earlier stages passing with
`Noop`-only evaluations; when no stage is of either kind, the returned
list is empty.  In particular actions of two different stages never mix
in one output. -/
theorem c1_amended (last_bake_status : List (String × Rat))
    (P : List SubnetUpdateProposal) (U : List UpdateUnassignedNodesProposal)
    (index : Index) (uv : String) (subnets : List Subnet) (now : Int)
    (dv : DesiredReleaseVersion) (acts : List SubnetAction)
    (hdv : desired_rollout_release_version subnets index.releases = Except.ok dv)
    (hok : check_stages last_bake_status P U index uv subnets now = Except.ok acts) :
    (∃ pre st post, index.rollout.stages = pre ++ st :: post ∧
      (∀ s ∈ pre, stage_passed last_bake_status P U uv subnets now dv s) ∧
      stage_eval last_bake_status P U uv subnets now dv st = Except.ok acts ∧
      (gate_fired now dv st = true ∨ acts.all isNoop = false))
    ∨ ((∀ s ∈ index.rollout.stages, stage_passed last_bake_status P U uv subnets now dv s) ∧
        acts = []) := by
  simp only [check_stages, hdv] at hok
  rcases check_stages_go_ok last_bake_status P U uv subnets now dv
      index.rollout.stages acts hok with
    ⟨pre, st, post, heq, hpre, hres⟩ | hterm
  · left
    refine ⟨pre, st, post, heq, hpre, ?_, ?_⟩
    · rcases hres with ⟨hg, hacts⟩ | ⟨hg, hcs, _⟩
      · unfold stage_eval
        rw [hg, if_pos rfl, hacts]
      · unfold stage_eval
        rw [hg]
        simpa using hcs
    · rcases hres with ⟨hg, _⟩ | ⟨_, _, hnoop⟩
      · exact Or.inl hg
      · exact Or.inr hnoop
  · right
    exact hterm

/-- Witness for the amended C1: a fresh rollout whose first stage places
a proposal. -/
theorem c1_amended_witness :
    (∃ pre st post,
      ([⟨["aaaaa"], 10, false, false⟩] : List Stage) = pre ++ st :: post ∧
      (∀ s ∈ pre, stage_passed [] [] [] "v2" [⟨"aaaaa-one", "v1"⟩] 5
        ⟨[("aaaaa-one", ⟨"b", "v2", []⟩)], ⟨"b", "v2", []⟩,
          ⟨"rc-b", [⟨"b", "v2", []⟩], 0⟩⟩ s) ∧
      stage_eval [] [] [] "v2" [⟨"aaaaa-one", "v1"⟩] 5
        ⟨[("aaaaa-one", ⟨"b", "v2", []⟩)], ⟨"b", "v2", []⟩,
          ⟨"rc-b", [⟨"b", "v2", []⟩], 0⟩⟩ st =
        Except.ok [SubnetAction.PlaceProposal false "aaaaa-one" "v2"] ∧
      (gate_fired 5 ⟨[("aaaaa-one", ⟨"b", "v2", []⟩)], ⟨"b", "v2", []⟩,
          ⟨"rc-b", [⟨"b", "v2", []⟩], 0⟩⟩ st = true ∨
        ([SubnetAction.PlaceProposal false "aaaaa-one" "v2"].all isNoop = false)))
    ∨ ((∀ s ∈ ([⟨["aaaaa"], 10, false, false⟩] : List Stage),
        stage_passed [] [] [] "v2" [⟨"aaaaa-one", "v1"⟩] 5
          ⟨[("aaaaa-one", ⟨"b", "v2", []⟩)], ⟨"b", "v2", []⟩,
            ⟨"rc-b", [⟨"b", "v2", []⟩], 0⟩⟩ s) ∧
        ([SubnetAction.PlaceProposal false "aaaaa-one" "v2"] : List SubnetAction) = []) :=
  c1_amended [] [] []
    ⟨⟨false, [], [⟨["aaaaa"], 10, false, false⟩]⟩,
      [⟨"rc-b", [⟨"b", "v2", []⟩], 0⟩, ⟨"rc-a", [⟨"a", "v1", []⟩], 0⟩]⟩
    "v2" [⟨"aaaaa-one", "v1"⟩] 5
    ⟨[("aaaaa-one", ⟨"b", "v2", []⟩)], ⟨"b", "v2", []⟩, ⟨"rc-b", [⟨"b", "v2", []⟩], 0⟩⟩
    [SubnetAction.PlaceProposal false "aaaaa-one" "v2"]
    (by decide) (by decide)

theorem mem_uniqueAux {α : Type} [DecidableEq α] (l seen : List α) (x : α) :
    x ∈ uniqueAux seen l ↔ x ∈ l ∧ x ∉ seen := by
  induction l generalizing seen with
  | nil => simp [uniqueAux]
  | cons a t ih =>
    unfold uniqueAux
    by_cases ha : a ∈ seen
    · rw [if_pos ha, ih]
      constructor
      · rintro ⟨hx, hns⟩
        exact ⟨List.mem_cons_of_mem a hx, hns⟩
      · rintro ⟨hx, hns⟩
        rcases List.mem_cons.mp hx with rfl | hx
        · exact absurd ha hns
        · exact ⟨hx, hns⟩
    · rw [if_neg ha]
      constructor
      · intro hx
        rcases List.mem_cons.mp hx with rfl | hx
        · exact ⟨List.mem_cons_self x t, ha⟩
        · rw [ih] at hx
          refine ⟨List.mem_cons_of_mem a hx.1, fun hc => hx.2 (List.mem_cons_of_mem a hc)⟩
      · rintro ⟨hx, hns⟩
        rcases List.mem_cons.mp hx with rfl | hx
        · exact List.mem_cons_self x _
        · by_cases hxa : x = a
          · subst hxa; exact List.mem_cons_self x _
          · refine List.mem_cons_of_mem a ?_
            rw [ih]
            exact ⟨hx, fun hc => by
              rcases List.mem_cons.mp hc with h | h
              · exact hxa h
              · exact hns h⟩

theorem mem_uniqueList {α : Type} [DecidableEq α] (l : List α) (x : α) :
    x ∈ uniqueList l ↔ x ∈ l := by
  unfold uniqueList
  rw [mem_uniqueAux]
  simp

theorem btreeInsert_mem (k : String) (v : Version) (m : List (String × Version))
    (x : String × Version) (hx : x ∈ btreeInsert k v m) : x = (k, v) ∨ x ∈ m := by
  induction m with
  | nil => simpa [btreeInsert] using hx
  | cons e rest ih =>
    unfold btreeInsert at hx
    by_cases h1 : strLt k e.1 = true
    · rw [if_pos h1] at hx
      rcases List.mem_cons.mp hx with rfl | hx
      · exact Or.inl rfl
      · exact Or.inr hx
    · rw [if_neg h1] at hx
      by_cases h2 : k = e.1
      · rw [if_pos h2] at hx
        rcases List.mem_cons.mp hx with rfl | hx
        · exact Or.inl rfl
        · exact Or.inr (List.mem_cons_of_mem e hx)
      · rw [if_neg h2] at hx
        rcases List.mem_cons.mp hx with rfl | hx
        · exact Or.inr (List.mem_cons_self x rest)
        · rcases ih hx with h | h
          · exact Or.inl h
          · exact Or.inr (List.mem_cons_of_mem e h)

theorem btreeInsert_key_mem (k : String) (v : Version) (m : List (String × Version)) :
    k ∈ (btreeInsert k v m).map Prod.fst := by
  induction m with
  | nil => simp [btreeInsert]
  | cons e rest ih =>
    unfold btreeInsert
    by_cases h1 : strLt k e.1 = true
    · rw [if_pos h1]; simp
    · rw [if_neg h1]
      by_cases h2 : k = e.1
      · rw [if_pos h2]; simp
      · rw [if_neg h2]
        simpa using Or.inr ih

theorem btreeInsert_keys_sup (k : String) (v : Version) (m : List (String × Version))
    (k' : String) (h : k' ∈ m.map Prod.fst) :
    k' ∈ (btreeInsert k v m).map Prod.fst := by
  induction m with
  | nil => simp at h
  | cons e rest ih =>
    unfold btreeInsert
    by_cases h1 : strLt k e.1 = true
    · rw [if_pos h1]
      simpa using Or.inr (by simpa using h)
    · rw [if_neg h1]
      rcases (by simpa using h : k' = e.1 ∨ k' ∈ rest.map Prod.fst) with heq | hmem
      · by_cases h2 : k = e.1
        · rw [if_pos h2]; subst h2; simp [heq]
        · rw [if_neg h2]; simp [heq]
      · by_cases h2 : k = e.1
        · rw [if_pos h2]; simpa using Or.inr hmem
        · rw [if_neg h2]; simpa using Or.inr (by simpa using ih (by simpa using hmem))

theorem assoc_lookup_eq (f : String → Option Version) (m : List (String × Version))
    (hm : ∀ e ∈ m, f e.1 = some e.2) (k : String) (hk : k ∈ m.map Prod.fst) :
    m.lookup k = f k := by
  induction m with
  | nil => simp at hk
  | cons e rest ih =>
    obtain ⟨k1, v1⟩ := e
    by_cases hbeq : k = k1
    · subst hbeq
      simp only [List.lookup, beq_self_eq_true]
      exact (hm (k, v1) (List.mem_cons_self _ rest)).symm
    · have hb : (k == k1) = false := beq_eq_false_iff_ne.mpr hbeq
      simp only [List.lookup, hb]
      refine ih (fun x hx => hm x (List.mem_cons_of_mem _ hx)) ?_
      rcases (by simpa using hk : k = k1 ∨ k ∈ rest.map Prod.fst) with h | h
      · exact absurd h hbeq
      · exact h

theorem btree_fold_lookup (f : String → Option Version)
    (pairs : List (String × Version)) (acc : List (String × Version))
    (hacc : ∀ e ∈ acc, f e.1 = some e.2) (hp : ∀ e ∈ pairs, f e.1 = some e.2)
    (k : String) (hk : k ∈ acc.map Prod.fst ∨ k ∈ pairs.map Prod.fst) :
    (pairs.foldl (fun a e => btreeInsert e.1 e.2 a) acc).lookup k = f k := by
  induction pairs generalizing acc with
  | nil =>
    rcases hk with hk | hk
    · exact assoc_lookup_eq f acc hacc k hk
    · simp at hk
  | cons e rest ih =>
    rw [List.foldl_cons]
    refine ih (btreeInsert e.1 e.2 acc) ?_ (fun x hx => hp x (List.mem_cons_of_mem e hx)) ?_
    · intro x hx
      rcases btreeInsert_mem e.1 e.2 acc x hx with heq | hmem
      · rw [heq]
        exact hp e (List.mem_cons_self e rest)
      · exact hacc x hmem
    · rcases hk with hk | hk
      · exact Or.inl (btreeInsert_keys_sup e.1 e.2 acc k hk)
      · rcases (by simpa using hk : k = e.1 ∨ k ∈ rest.map Prod.fst) with heq | hmem
        · refine Or.inl ?_
          rw [heq]
          exact btreeInsert_key_mem e.1 e.2 acc
        · exact Or.inr hmem

theorem btreeOfList_lookup (f : String → Option Version)
    (pairs : List (String × Version)) (hp : ∀ e ∈ pairs, f e.1 = some e.2)
    (k : String) (hk : k ∈ pairs.map Prod.fst) :
    (btreeOfList pairs).lookup k = f k :=
  btree_fold_lookup f pairs [] (by simp) hp k (Or.inr hk)

theorem find_or_first_isSome (nr : Release) (principal : String)
    (h : nr.versions ≠ []) : (find_or_first nr principal).isSome := by
  unfold find_or_first
  cases hf : nr.versions.find? (fun v =>
      v.subnets.any (fun vs => strStartsWith principal vs)) with
  | some v => simp
  | none =>
    simp only [Option.none_or]
    cases hv : nr.versions with
    | nil => exact absurd hv h
    | cons a t => simp

theorem subnet_targets_of_ok (nr : Release) (subnets : List Subnet)
    (h : nr.versions ≠ []) :
    ∃ pairs, subnet_targets_of nr subnets = Except.ok pairs ∧
      (∀ e ∈ pairs, find_or_first nr e.1 = some e.2) ∧
      pairs.map Prod.fst = subnets.map Subnet.principal := by
  induction subnets with
  | nil => exact ⟨[], rfl, by simp, by simp⟩
  | cons s rest ih =>
    obtain ⟨v, hv⟩ := Option.isSome_iff_exists.mp (find_or_first_isSome nr s.principal h)
    obtain ⟨pairs, hps, hmem, hkeys⟩ := ih
    refine ⟨(s.principal, v) :: pairs, ?_, ?_, ?_⟩
    · simp only [subnet_targets_of, target_pair_for, hv, hps]
    · intro e he
      rcases List.mem_cons.mp he with rfl | hm
      · exact hv
      · exact hmem e hm
    · simp [hkeys]

theorem desired_eq (subnets : List Subnet) (releases : List Release)
    (rs : List Release) (fr nr : Release)
    (hrs : subnets_releases_of releases subnets = Except.ok rs)
    (hlen : ¬ ((uniqueList rs).length > 2))
    (hfr : releases.find? (fun r => (uniqueList rs).contains r) = some fr)
    (hstep : (if (uniqueList rs).length = 1 then
        match releases.findIdx? (fun r => r == fr) with
        | none => Except.error (EngineError.panic ("release should exist"))
        | some idx =>
          match releases.get? (idx - 1) with
          | none => Except.error (EngineError.panic ("index out of bounds"))
          | some r => Except.ok r
      else Except.ok fr) = Except.ok nr)
    (hvers : nr.versions ≠ []) :
    ∃ pairs v0, subnet_targets_of nr subnets = Except.ok pairs ∧
      (∀ e ∈ pairs, find_or_first nr e.1 = some e.2) ∧
      pairs.map Prod.fst = subnets.map Subnet.principal ∧
      nr.versions.head? = some v0 ∧
      desired_rollout_release_version subnets releases =
        Except.ok ⟨btreeOfList pairs, v0, nr⟩ := by
  obtain ⟨pairs, hps, hpmem, hpkeys⟩ := subnet_targets_of_ok nr subnets hvers
  obtain ⟨v0, hv0⟩ : ∃ v0, nr.versions.head? = some v0 := by
    cases hv : nr.versions with
    | nil => exact absurd hv hvers
    | cons a t => exact ⟨a, rfl⟩
  refine ⟨pairs, v0, hps, hpmem, hpkeys, hv0, ?_⟩
  simp only [desired_rollout_release_version, hrs]
  rw [if_neg hlen]
  simp only [hfr, hstep, hps, hv0]

theorem desired_per_subnet_facts (nr : Release) (subnets : List Subnet)
    (pairs : List (String × Version)) (hvers : nr.versions ≠ [])
    (hpmem : ∀ e ∈ pairs, find_or_first nr e.1 = some e.2)
    (hpkeys : pairs.map Prod.fst = subnets.map Subnet.principal) :
    ∀ s ∈ subnets, ∃ v, (btreeOfList pairs).lookup s.principal = some v ∧
      (nr.versions.find? (fun w =>
          w.subnets.any (fun vs => strStartsWith s.principal vs)) = some v ∨
        (nr.versions.find? (fun w =>
            w.subnets.any (fun vs => strStartsWith s.principal vs)) = none ∧
          nr.versions.head? = some v)) := by
  intro s hs
  have hk : s.principal ∈ pairs.map Prod.fst := by
    rw [hpkeys]
    exact List.mem_map_of_mem Subnet.principal hs
  have hlook : (btreeOfList pairs).lookup s.principal = find_or_first nr s.principal :=
    btreeOfList_lookup (fun k => find_or_first nr k) pairs hpmem s.principal hk
  obtain ⟨v, hv⟩ := Option.isSome_iff_exists.mp (find_or_first_isSome nr s.principal hvers)
  refine ⟨v, hlook.trans hv, ?_⟩
  unfold find_or_first at hv
  cases hfind : nr.versions.find? (fun w =>
      w.subnets.any (fun vs => strStartsWith s.principal vs)) with
  | some w =>
    rw [hfind] at hv
    simp only [Option.or_some] at hv
    exact Or.inl hv
  | none =>
    rw [hfind] at hv
    simp only [Option.none_or] at hv
    exact Or.inr ⟨rfl, hv⟩

theorem releases_in_use_subset (subnets : List Subnet) (releases : List Release)
    (r : Release) (hr : r ∈ releases_in_use subnets releases) : r ∈ releases := by
  have h1 : r ∈ (subnets.filterMap (fun s => releases.find? (fun r =>
      r.versions.any (fun v => v.version == s.replica_version)))) :=
    (mem_uniqueList _ r).mp hr
  obtain ⟨s, _, hfind⟩ := List.mem_filterMap.mp h1
  exact List.mem_of_find?_eq_some hfind

/-- C2: for a fleet spanning one or two catalog releases (each version
found in the catalog, all version lists non-empty),
`desired_rollout_release_version` succeeds; the active release is the
first catalog release among the two in use (the newer one), or, with
exactly one in use, the release at its catalog index minus one (Nat
subtraction saturating at 0); each subnet's target is the first version
of the active release pinning a prefix of the subnet's principal, else
the version at position 0; and the unassigned-nodes target is the active
release's position-0 version. -/
theorem c2_desired_release_refinement (subnets : List Subnet) (releases : List Release)
    (hFound : ∀ s ∈ subnets, (releases.find? (fun r =>
        r.versions.any (fun v => v.version == s.replica_version))).isSome)
    (hSpan : (releases_in_use subnets releases).length = 1 ∨
      (releases_in_use subnets releases).length = 2)
    (hVers : ∀ r ∈ releases, r.versions ≠ []) :
    ∃ dv, desired_rollout_release_version subnets releases = Except.ok dv ∧
      ((releases_in_use subnets releases).length = 2 →
        releases.find? (fun r => (releases_in_use subnets releases).contains r) =
          some dv.release) ∧
      (∀ r0, releases_in_use subnets releases = [r0] →
        ∃ i, releases.findIdx? (fun r => r == r0) = some i ∧
          releases.get? (i - 1) = some dv.release) ∧
      (∀ s ∈ subnets, ∃ v, dv.subnets.lookup s.principal = some v ∧
        (dv.release.versions.find? (fun w =>
            w.subnets.any (fun vs => strStartsWith s.principal vs)) = some v ∨
          (dv.release.versions.find? (fun w =>
              w.subnets.any (fun vs => strStartsWith s.principal vs)) = none ∧
            dv.release.versions.head? = some v))) ∧
      dv.release.versions.head? = some dv.unassigned_nodes := by
  have hrs := subnets_releases_of_ok releases subnets hFound
  rcases hSpan with h1 | h2
  · obtain ⟨r0, hL⟩ : ∃ r0, releases_in_use subnets releases = [r0] := by
      cases hc : releases_in_use subnets releases with
      | nil => rw [hc] at h1; simp at h1
      | cons a t =>
        cases t with
        | nil => exact ⟨a, rfl⟩
        | cons b u => rw [hc] at h1; simp at h1
    have hr0 : r0 ∈ releases :=
      releases_in_use_subset subnets releases r0 (by rw [hL]; exact List.mem_cons_self _ _)
    have hsome : (releases.find? (fun r =>
        (releases_in_use subnets releases).contains r)).isSome := by
      rw [List.find?_isSome]
      refine ⟨r0, hr0, ?_⟩
      rw [hL]
      exact List.elem_eq_true_of_mem (List.mem_cons_self r0 [])
    obtain ⟨fr, hfr⟩ := Option.isSome_iff_exists.mp hsome
    have hfr0 : fr = r0 := by
      have hp := List.find?_some hfr
      rw [hL] at hp
      rw [List.contains_eq_any_beq] at hp
      obtain ⟨x, hx, hbeq⟩ := List.any_eq_true.mp hp
      rw [List.mem_singleton.mp hx] at hbeq
      exact eq_of_beq hbeq
    subst hfr0
    have hidxSome : (releases.findIdx? (fun r => r == fr)).isSome := by
      rw [List.findIdx?_isSome, List.any_eq_true]
      exact ⟨fr, hr0, beq_iff_eq.mpr rfl⟩
    obtain ⟨i, hi⟩ := Option.isSome_iff_exists.mp hidxSome
    have hilt : i < releases.length := (List.findIdx?_eq_some_iff_findIdx_eq.mp hi).1
    have hi1 : i - 1 < releases.length := by omega
    obtain ⟨nr, hnr⟩ : ∃ nr, releases.get? (i - 1) = some nr :=
      ⟨releases.get ⟨i - 1, hi1⟩, List.get?_eq_get hi1⟩
    have hnrmem : nr ∈ releases := List.get?_mem hnr
    have hstep : (if (uniqueList (subnets.filterMap (fun s => releases.find? (fun r =>
          r.versions.any (fun v => v.version == s.replica_version))))).length = 1 then
        match releases.findIdx? (fun r => r == fr) with
        | none => Except.error (EngineError.panic ("release should exist"))
        | some idx =>
          match releases.get? (idx - 1) with
          | none => Except.error (EngineError.panic ("index out of bounds"))
          | some r => Except.ok r
      else Except.ok fr) = Except.ok nr := by
      rw [show uniqueList (subnets.filterMap (fun s => releases.find? (fun r =>
          r.versions.any (fun v => v.version == s.replica_version)))) = [fr] from hL]
      simp only [List.length_singleton, if_pos]
      simp only [hi, hnr]
    obtain ⟨pairs, v0, hps, hpmem, hpkeys, hv0, hcomp⟩ :=
      desired_eq subnets releases _ fr nr hrs
        (by rw [show uniqueList (subnets.filterMap (fun s => releases.find? (fun r =>
            r.versions.any (fun v => v.version == s.replica_version)))) = [fr] from hL]
            simp)
        (hfr) hstep (hVers nr hnrmem)
    refine ⟨⟨btreeOfList pairs, v0, nr⟩, hcomp, ?_, ?_, ?_, ?_⟩
    · intro habs
      rw [hL] at habs
      simp at habs
    · intro r0' hL'
      rw [hL] at hL'
      obtain rfl : fr = r0' := by simpa using hL'
      exact ⟨i, hi, hnr⟩
    · exact desired_per_subnet_facts nr subnets pairs (hVers nr hnrmem) hpmem hpkeys
    · exact hv0
  · obtain ⟨r0, r1, hL⟩ : ∃ r0 r1, releases_in_use subnets releases = [r0, r1] := by
      cases hc : releases_in_use subnets releases with
      | nil => rw [hc] at h2; simp at h2
      | cons a t =>
        cases t with
        | nil => rw [hc] at h2; simp at h2
        | cons b u =>
          cases u with
          | nil => exact ⟨a, b, rfl⟩
          | cons c w => rw [hc] at h2; simp at h2
    have hr0 : r0 ∈ releases :=
      releases_in_use_subset subnets releases r0 (by rw [hL]; exact List.mem_cons_self _ _)
    have hsome : (releases.find? (fun r =>
        (releases_in_use subnets releases).contains r)).isSome := by
      rw [List.find?_isSome]
      refine ⟨r0, hr0, ?_⟩
      rw [hL]
      exact List.elem_eq_true_of_mem (List.mem_cons_self r0 [r1])
    obtain ⟨fr, hfr⟩ := Option.isSome_iff_exists.mp hsome
    have hfrmem : fr ∈ releases := List.mem_of_find?_eq_some hfr
    have hstep : (if (uniqueList (subnets.filterMap (fun s => releases.find? (fun r =>
          r.versions.any (fun v => v.version == s.replica_version))))).length = 1 then
        match releases.findIdx? (fun r => r == fr) with
        | none => Except.error (EngineError.panic ("release should exist"))
        | some idx =>
          match releases.get? (idx - 1) with
          | none => Except.error (EngineError.panic ("index out of bounds"))
          | some r => Except.ok r
      else Except.ok fr) = Except.ok fr := by
      rw [show uniqueList (subnets.filterMap (fun s => releases.find? (fun r =>
          r.versions.any (fun v => v.version == s.replica_version)))) = [r0, r1] from hL]
      simp
    obtain ⟨pairs, v0, hps, hpmem, hpkeys, hv0, hcomp⟩ :=
      desired_eq subnets releases _ fr fr hrs
        (by rw [show uniqueList (subnets.filterMap (fun s => releases.find? (fun r =>
            r.versions.any (fun v => v.version == s.replica_version)))) = [r0, r1] from hL]
            simp)
        (hfr) hstep (hVers fr hfrmem)
    refine ⟨⟨btreeOfList pairs, v0, fr⟩, hcomp, ?_, ?_, ?_, ?_⟩
    · intro _
      exact hfr
    · intro r0' habs
      rw [hL] at habs
      simp at habs
    · exact desired_per_subnet_facts fr subnets pairs (hVers fr hfrmem) hpmem hpkeys
    · exact hv0

/-- Witness for C2: two subnets on two adjacent releases. -/
theorem c2_desired_release_refinement_witness :
    ∃ dv, desired_rollout_release_version
        [⟨"aaaaa-one", "v1"⟩, ⟨"bbbbb-one", "v2"⟩]
        [⟨"rc-b", [⟨"b", "v2", []⟩], 0⟩, ⟨"rc-a", [⟨"a", "v1", []⟩], 0⟩] =
      Except.ok dv ∧
      ((releases_in_use [⟨"aaaaa-one", "v1"⟩, ⟨"bbbbb-one", "v2"⟩]
          [⟨"rc-b", [⟨"b", "v2", []⟩], 0⟩, ⟨"rc-a", [⟨"a", "v1", []⟩], 0⟩]).length = 2 →
        [(⟨"rc-b", [⟨"b", "v2", []⟩], 0⟩ : Release), ⟨"rc-a", [⟨"a", "v1", []⟩], 0⟩].find?
            (fun r => (releases_in_use [⟨"aaaaa-one", "v1"⟩, ⟨"bbbbb-one", "v2"⟩]
              [⟨"rc-b", [⟨"b", "v2", []⟩], 0⟩, ⟨"rc-a", [⟨"a", "v1", []⟩], 0⟩]).contains r) =
          some dv.release) ∧
      (∀ r0, releases_in_use [⟨"aaaaa-one", "v1"⟩, ⟨"bbbbb-one", "v2"⟩]
          [⟨"rc-b", [⟨"b", "v2", []⟩], 0⟩, ⟨"rc-a", [⟨"a", "v1", []⟩], 0⟩] = [r0] →
        ∃ i, [(⟨"rc-b", [⟨"b", "v2", []⟩], 0⟩ : Release),
            ⟨"rc-a", [⟨"a", "v1", []⟩], 0⟩].findIdx? (fun r => r == r0) = some i ∧
          [(⟨"rc-b", [⟨"b", "v2", []⟩], 0⟩ : Release),
            ⟨"rc-a", [⟨"a", "v1", []⟩], 0⟩].get? (i - 1) = some dv.release) ∧
      (∀ s ∈ [(⟨"aaaaa-one", "v1"⟩ : Subnet), ⟨"bbbbb-one", "v2"⟩],
        ∃ v, dv.subnets.lookup s.principal = some v ∧
          (dv.release.versions.find? (fun w =>
              w.subnets.any (fun vs => strStartsWith s.principal vs)) = some v ∨
            (dv.release.versions.find? (fun w =>
                w.subnets.any (fun vs => strStartsWith s.principal vs)) = none ∧
              dv.release.versions.head? = some v))) ∧
      dv.release.versions.head? = some dv.unassigned_nodes :=
  c2_desired_release_refinement
    [⟨"aaaaa-one", "v1"⟩, ⟨"bbbbb-one", "v2"⟩]
    [⟨"rc-b", [⟨"b", "v2", []⟩], 0⟩, ⟨"rc-a", [⟨"a", "v1", []⟩], 0⟩]
    (by decide) (by decide) (by decide)

theorem check_stage_subnets_noop_inv (last_bake_status : List (String × Rat))
    (P : List SubnetUpdateProposal) (subnets : List Subnet)
    (dv : DesiredReleaseVersion) (bt : Rat) (prefixes : List String)
    (acts : List SubnetAction)
    (h : check_stage_subnets last_bake_status P subnets dv bt prefixes = Except.ok acts)
    (hnoop : acts.all isNoop = true) (P' : List SubnetUpdateProposal) :
    check_stage_subnets last_bake_status P' subnets dv bt prefixes = Except.ok acts := by
  induction prefixes generalizing acts with
  | nil => exact h
  | cons short rest ih =>
    simp only [check_stage_subnets] at h ⊢
    cases hfind : dv.subnets.find? (fun e => strStartsWith e.1 short) with
    | none => rw [hfind] at h; cases h
    | some sv =>
      simp only [hfind] at h ⊢
      cases hfs : subnets.find? (fun s => sv.1 == s.principal) with
      | none => simp only [hfs] at h; cases h
      | some subnet =>
        simp only [hfs] at h ⊢
        by_cases hv : subnet.replica_version = sv.2.version
        · simp only [if_pos hv] at h ⊢
          cases hbake : get_remaining_bake_time_for_subnet last_bake_status subnet bt with
          | error e => simp only [hbake] at h; cases h
          | ok remaining =>
            simp only [hbake] at h ⊢
            by_cases hr : remaining ≠ 0
            · simp only [if_pos hr] at h
              cases hrec : check_stage_subnets last_bake_status P subnets dv bt rest with
              | error e => simp only [hrec] at h; cases h
              | ok tail =>
                simp only [hrec] at h
                obtain rfl := Except.ok.inj h
                simp [isNoop] at hnoop
            · simp only [if_neg hr] at h ⊢
              cases hrec : check_stage_subnets last_bake_status P subnets dv bt rest with
              | error e => simp only [hrec] at h; cases h
              | ok tail =>
                simp only [hrec] at h
                obtain rfl := Except.ok.inj h
                have hnoop' : tail.all isNoop = true := by simpa [isNoop] using hnoop
                simp only [ih tail hrec hnoop']
        · simp only [if_neg hv] at h
          cases hopen : get_open_proposal_for_subnet P subnet sv.2.version with
          | some prop =>
            simp only [hopen] at h
            cases hrec : check_stage_subnets last_bake_status P subnets dv bt rest with
            | error e => simp only [hrec] at h; cases h
            | ok tail =>
              simp only [hrec] at h
              obtain rfl := Except.ok.inj h
              simp [isNoop] at hnoop
          | none =>
            simp only [hopen] at h
            cases hrec : check_stage_subnets last_bake_status P subnets dv bt rest with
            | error e => simp only [hrec] at h; cases h
            | ok tail =>
              simp only [hrec] at h
              obtain rfl := Except.ok.inj h
              simp [isNoop] at hnoop

theorem check_stage_noop_inv (last_bake_status : List (String × Rat))
    (P : List SubnetUpdateProposal) (U : List UpdateUnassignedNodesProposal)
    (st : Stage) (uv : String) (subnets : List Subnet)
    (dv : DesiredReleaseVersion) (acts : List SubnetAction)
    (h : check_stage last_bake_status P U st uv subnets dv = Except.ok acts)
    (hnoop : acts.all isNoop = true)
    (P' : List SubnetUpdateProposal) (U' : List UpdateUnassignedNodesProposal) :
    check_stage last_bake_status P' U' st uv subnets dv = Except.ok acts := by
  unfold check_stage at h ⊢
  by_cases hu : st.update_unassigned_nodes = true
  · simp only [hu, if_true] at h ⊢
    by_cases hveq : uv ≠ dv.unassigned_nodes.version
    · rw [if_pos hveq] at h
      cases hopen : U.find? (fun proposal => !proposal.info.executed &&
          proposal.payload.replica_version == some dv.unassigned_nodes.version) with
      | none =>
        rw [hopen] at h
        obtain rfl := Except.ok.inj h
        simp [isNoop] at hnoop
      | some prop =>
        rw [hopen] at h
        obtain rfl := Except.ok.inj h
        simp [isNoop] at hnoop
    · rw [if_neg hveq] at h ⊢
      exact h
  · simp only [hu] at h ⊢
    simp only [Bool.false_eq_true, if_false] at h ⊢
    exact check_stage_subnets_noop_inv last_bake_status P subnets dv st.bake_time
      st.subnets acts h hnoop P'

theorem stage_passed_inv (last_bake_status : List (String × Rat))
    (P : List SubnetUpdateProposal) (U : List UpdateUnassignedNodesProposal)
    (uv : String) (subnets : List Subnet) (now : Int)
    (dv : DesiredReleaseVersion) (st : Stage)
    (h : stage_passed last_bake_status P U uv subnets now dv st)
    (P' : List SubnetUpdateProposal) (U' : List UpdateUnassignedNodesProposal) :
    stage_passed last_bake_status P' U' uv subnets now dv st := by
  obtain ⟨hg, a, ha, hnoop⟩ := h
  exact ⟨hg, a, check_stage_noop_inv last_bake_status P U st uv subnets dv a ha hnoop P' U',
    hnoop⟩

theorem subnetPlaceTargets_wait (l : List String) :
    subnetPlaceTargets (l.map (fun s => SubnetAction.WaitForNextWeek s)) = [] := by
  induction l with
  | nil => rfl
  | cons a t ih => simp [subnetPlaceTargets, List.filterMap_cons, ih]

theorem unassignedPlaceTargets_wait (l : List String) :
    unassignedPlaceTargets (l.map (fun s => SubnetAction.WaitForNextWeek s)) = [] := by
  induction l with
  | nil => rfl
  | cons a t ih => simp [unassignedPlaceTargets, List.filterMap_cons, ih]

theorem get_open_append_some (P newP : List SubnetUpdateProposal) (subnet : Subnet)
    (v : String) (p : SubnetUpdateProposal)
    (h : get_open_proposal_for_subnet P subnet v = some p) :
    get_open_proposal_for_subnet (P ++ newP) subnet v = some p := by
  unfold get_open_proposal_for_subnet at h ⊢
  rw [List.find?_append, h]
  rfl

theorem get_open_append_none (P newP : List SubnetUpdateProposal) (subnet : Subnet)
    (v : String) (h : get_open_proposal_for_subnet P subnet v = none) :
    get_open_proposal_for_subnet (P ++ newP) subnet v =
      get_open_proposal_for_subnet newP subnet v := by
  unfold get_open_proposal_for_subnet at h ⊢
  rw [List.find?_append, h]
  rfl

theorem check_stage_subnets_idem (last_bake_status : List (String × Rat))
    (P newP : List SubnetUpdateProposal) (U' : List UpdateUnassignedNodesProposal)
    (subnets : List Subnet) (dv : DesiredReleaseVersion) (bt : Rat)
    (prefixes : List String) (acts : List SubnetAction)
    (h : check_stage_subnets last_bake_status P subnets dv bt prefixes = Except.ok acts)
    (hnew : ∀ t ∈ subnetPlaceTargets acts, ∃ p ∈ newP,
      p.payload.subnet_id = t.1 ∧ p.payload.replica_version_id = t.2 ∧
      p.info.executed = false) :
    ∃ acts2, check_stage_subnets last_bake_status (P ++ newP) subnets dv bt prefixes =
        Except.ok acts2 ∧
      List.Forall₂ (act_rel (P ++ newP) U') acts acts2 := by
  induction prefixes generalizing acts with
  | nil =>
    obtain rfl := Except.ok.inj h
    exact ⟨[], rfl, List.Forall₂.nil⟩
  | cons short rest ih =>
    simp only [check_stage_subnets] at h ⊢
    cases hfind : dv.subnets.find? (fun e => strStartsWith e.1 short) with
    | none => rw [hfind] at h; cases h
    | some sv =>
      simp only [hfind] at h ⊢
      cases hfs : subnets.find? (fun s => sv.1 == s.principal) with
      | none => simp only [hfs] at h; cases h
      | some subnet =>
        simp only [hfs] at h ⊢
        by_cases hv : subnet.replica_version = sv.2.version
        · simp only [if_pos hv] at h ⊢
          cases hbake : get_remaining_bake_time_for_subnet last_bake_status subnet bt with
          | error e => simp only [hbake] at h; cases h
          | ok remaining =>
            simp only [hbake] at h ⊢
            by_cases hr : remaining ≠ 0
            · simp only [if_pos hr] at h ⊢
              cases hrec : check_stage_subnets last_bake_status P subnets dv bt rest with
              | error e => simp only [hrec] at h; cases h
              | ok tail =>
                simp only [hrec] at h
                obtain rfl := Except.ok.inj h
                have hcons : subnetPlaceTargets
                    (SubnetAction.Baking short remaining :: tail) =
                    subnetPlaceTargets tail := by
                  simp [subnetPlaceTargets, List.filterMap_cons]
                obtain ⟨tail2, hrec2, hrel⟩ :=
                  ih tail hrec (fun t ht => hnew t (by rw [hcons]; exact ht))
                refine ⟨SubnetAction.Baking short remaining :: tail2, by simp only [hrec2], ?_⟩
                exact List.Forall₂.cons rfl hrel
            · simp only [if_neg hr] at h ⊢
              cases hrec : check_stage_subnets last_bake_status P subnets dv bt rest with
              | error e => simp only [hrec] at h; cases h
              | ok tail =>
                simp only [hrec] at h
                obtain rfl := Except.ok.inj h
                have hcons : subnetPlaceTargets (SubnetAction.Noop short :: tail) =
                    subnetPlaceTargets tail := by
                  simp [subnetPlaceTargets, List.filterMap_cons]
                obtain ⟨tail2, hrec2, hrel⟩ :=
                  ih tail hrec (fun t ht => hnew t (by rw [hcons]; exact ht))
                refine ⟨SubnetAction.Noop short :: tail2, by simp only [hrec2], ?_⟩
                exact List.Forall₂.cons rfl hrel
        · simp only [if_neg hv] at h ⊢
          cases hopen : get_open_proposal_for_subnet P subnet sv.2.version with
          | some prop =>
            simp only [hopen] at h
            have hopen2 := get_open_append_some P newP subnet sv.2.version prop hopen
            simp only [hopen2]
            cases hrec : check_stage_subnets last_bake_status P subnets dv bt rest with
            | error e => simp only [hrec] at h; cases h
            | ok tail =>
              simp only [hrec] at h
              obtain rfl := Except.ok.inj h
              have hcons : subnetPlaceTargets
                  (SubnetAction.PendingProposal short prop.info.id :: tail) =
                  subnetPlaceTargets tail := by
                simp [subnetPlaceTargets, List.filterMap_cons]
              obtain ⟨tail2, hrec2, hrel⟩ :=
                ih tail hrec (fun t ht => hnew t (by rw [hcons]; exact ht))
              refine ⟨SubnetAction.PendingProposal short prop.info.id :: tail2,
                by simp only [hrec2], ?_⟩
              exact List.Forall₂.cons rfl hrel
          | none =>
            simp only [hopen] at h
            cases hrec : check_stage_subnets last_bake_status P subnets dv bt rest with
            | error e => simp only [hrec] at h; cases h
            | ok tail =>
              simp only [hrec] at h
              obtain rfl := Except.ok.inj h
              have hcons : subnetPlaceTargets
                  (SubnetAction.PlaceProposal false subnet.principal sv.2.version :: tail) =
                  (subnet.principal, sv.2.version) :: subnetPlaceTargets tail := by
                simp [subnetPlaceTargets, List.filterMap_cons]
              have ht : (subnet.principal, sv.2.version) ∈ subnetPlaceTargets
                  (SubnetAction.PlaceProposal false subnet.principal sv.2.version :: tail) := by
                rw [hcons]
                exact List.mem_cons_self _ _
              obtain ⟨p, hp, hsid, hver, hexec⟩ := hnew _ ht
              have hfound : (get_open_proposal_for_subnet newP subnet sv.2.version).isSome := by
                unfold get_open_proposal_for_subnet
                rw [List.find?_isSome]
                refine ⟨p, hp, ?_⟩
                simp only [hsid, hver, hexec]
                simp
              obtain ⟨p', hp'⟩ := Option.isSome_iff_exists.mp hfound
              have hopen2 : get_open_proposal_for_subnet (P ++ newP) subnet sv.2.version =
                  some p' := by
                rw [get_open_append_none P newP subnet sv.2.version hopen]
                exact hp'
              simp only [hopen2]
              unfold get_open_proposal_for_subnet at hp'
              have hpred := List.find?_some hp'
              simp only [Bool.and_eq_true, beq_iff_eq, Bool.not_eq_true'] at hpred
              have hp'mem : p' ∈ newP := List.mem_of_find?_eq_some hp'
              obtain ⟨tail2, hrec2, hrel⟩ :=
                ih tail hrec (fun t ht' => hnew t (by
                  rw [hcons]
                  exact List.mem_cons_of_mem _ ht'))
              refine ⟨SubnetAction.PendingProposal short p'.info.id :: tail2,
                by simp only [hrec2], ?_⟩
              refine List.Forall₂.cons ?_ hrel
              exact ⟨short, p'.info.id, p', rfl, List.mem_append.mpr (Or.inr hp'mem),
                hpred.1.1, hpred.1.2, hpred.2, rfl⟩

theorem check_stage_idem (last_bake_status : List (String × Rat))
    (P newP : List SubnetUpdateProposal) (U newU : List UpdateUnassignedNodesProposal)
    (st : Stage) (uv : String) (subnets : List Subnet) (dv : DesiredReleaseVersion)
    (acts : List SubnetAction)
    (h : check_stage last_bake_status P U st uv subnets dv = Except.ok acts)
    (hnewP : ∀ t ∈ subnetPlaceTargets acts, ∃ p ∈ newP,
      p.payload.subnet_id = t.1 ∧ p.payload.replica_version_id = t.2 ∧
      p.info.executed = false)
    (hnewU : ∀ v ∈ unassignedPlaceTargets acts, ∃ p ∈ newU,
      p.payload.replica_version = some v ∧ p.info.executed = false) :
    ∃ acts2, check_stage last_bake_status (P ++ newP) (U ++ newU) st uv subnets dv =
        Except.ok acts2 ∧
      List.Forall₂ (act_rel (P ++ newP) (U ++ newU)) acts acts2 := by
  unfold check_stage at h ⊢
  by_cases hu : st.update_unassigned_nodes = true
  · simp only [hu, if_true] at h ⊢
    by_cases hveq : uv ≠ dv.unassigned_nodes.version
    · rw [if_pos hveq] at h ⊢
      cases hopen : U.find? (fun proposal => !proposal.info.executed &&
          proposal.payload.replica_version == some dv.unassigned_nodes.version) with
      | some prop =>
        rw [hopen] at h
        obtain rfl := Except.ok.inj h
        have hopen2 : (U ++ newU).find? (fun proposal => !proposal.info.executed &&
            proposal.payload.replica_version == some dv.unassigned_nodes.version) =
            some prop := by
          rw [List.find?_append, hopen]
          rfl
        rw [hopen2]
        exact ⟨_, rfl, List.Forall₂.cons rfl List.Forall₂.nil⟩
      | none =>
        rw [hopen] at h
        obtain rfl := Except.ok.inj h
        have hv : dv.unassigned_nodes.version ∈ unassignedPlaceTargets
            [SubnetAction.PlaceProposal true "" dv.unassigned_nodes.version] := by
          simp [unassignedPlaceTargets, List.filterMap_cons]
        obtain ⟨p, hp, hver, hexec⟩ := hnewU _ hv
        have hfound : (newU.find? (fun proposal => !proposal.info.executed &&
            proposal.payload.replica_version == some dv.unassigned_nodes.version)).isSome := by
          rw [List.find?_isSome]
          refine ⟨p, hp, ?_⟩
          simp only [hver, hexec]
          simp
        obtain ⟨p', hp'⟩ := Option.isSome_iff_exists.mp hfound
        have hopen2 : (U ++ newU).find? (fun proposal => !proposal.info.executed &&
            proposal.payload.replica_version == some dv.unassigned_nodes.version) =
            some p' := by
          rw [List.find?_append, hopen]
          simp only [Option.none_or]
          exact hp'
        rw [hopen2]
        refine ⟨[SubnetAction.PendingProposal ("unassigned-version") p'.info.id], rfl,
          List.Forall₂.cons ?_ List.Forall₂.nil⟩
        have hpred := List.find?_some hp'
        simp only [Bool.and_eq_true, Bool.not_eq_true', beq_iff_eq] at hpred
        exact ⟨p'.info.id, p', rfl,
          List.mem_append.mpr (Or.inr (List.mem_of_find?_eq_some hp')),
          hpred.2, hpred.1, rfl⟩
    · rw [if_neg hveq] at h ⊢
      obtain rfl := Except.ok.inj h
      exact ⟨_, rfl, List.Forall₂.cons rfl List.Forall₂.nil⟩
  · simp only [hu] at h ⊢
    simp only [Bool.false_eq_true, if_false] at h ⊢
    exact check_stage_subnets_idem last_bake_status P newP (U ++ newU) subnets dv
      st.bake_time st.subnets acts h hnewP

theorem act_rel_not_noop (P' : List SubnetUpdateProposal)
    (U' : List UpdateUnassignedNodesProposal) (a b : SubnetAction)
    (hr : act_rel P' U' a b) (ha : isNoop a = false) : isNoop b = false := by
  cases a with
  | Noop s => simp [isNoop] at ha
  | Baking s r =>
    simp only [act_rel] at hr
    rw [hr]
    exact ha
  | PendingProposal s i =>
    simp only [act_rel] at hr
    rw [hr]
    exact ha
  | WaitForNextWeek s =>
    simp only [act_rel] at hr
    rw [hr]
    exact ha
  | PlaceProposal bb s v =>
    cases bb with
    | false =>
      simp only [act_rel] at hr
      obtain ⟨short, id, p, hb, -⟩ := hr
      rw [hb]
      rfl
    | true =>
      simp only [act_rel] at hr
      obtain ⟨id, p, hb, -⟩ := hr
      rw [hb]
      rfl

theorem act_rel_not_place (P' : List SubnetUpdateProposal)
    (U' : List UpdateUnassignedNodesProposal) (a b : SubnetAction)
    (hr : act_rel P' U' a b) :
    ∀ (bb : Bool) (s v : String), b ≠ SubnetAction.PlaceProposal bb s v := by
  intro bb s v hb
  cases a with
  | Noop s' =>
    simp only [act_rel] at hr
    rw [hr] at hb
    cases hb
  | Baking s' r =>
    simp only [act_rel] at hr
    rw [hr] at hb
    cases hb
  | PendingProposal s' i =>
    simp only [act_rel] at hr
    rw [hr] at hb
    cases hb
  | WaitForNextWeek s' =>
    simp only [act_rel] at hr
    rw [hr] at hb
    cases hb
  | PlaceProposal bb' s' v' =>
    cases bb' with
    | false =>
      simp only [act_rel] at hr
      obtain ⟨short, id, p, hb', -⟩ := hr
      rw [hb'] at hb
      cases hb
    | true =>
      simp only [act_rel] at hr
      obtain ⟨id, p, hb', -⟩ := hr
      rw [hb'] at hb
      cases hb

/-- C7: idempotence.  If a run of `check_stages` returns an action list
containing `PlaceProposal` actions and, for each such action, an open
proposal for exactly that target (subnet and version, or unassigned
nodes with that replica version) is appended to the proposal lists, the
re-run succeeds, emits no `PlaceProposal` at all, and pointwise each
first-run `PlaceProposal` is replaced by a `PendingProposal` carrying
the id of a matching open proposal of the extended list, all other
actions unchanged. -/
theorem c7_idempotence (last_bake_status : List (String × Rat))
    (P : List SubnetUpdateProposal) (U : List UpdateUnassignedNodesProposal)
    (index : Index) (uv : String) (subnets : List Subnet) (now : Int)
    (acts : List SubnetAction) (newP : List SubnetUpdateProposal)
    (newU : List UpdateUnassignedNodesProposal)
    (h1 : check_stages last_bake_status P U index uv subnets now = Except.ok acts)
    (hplace : subnetPlaceTargets acts ≠ [] ∨ unassignedPlaceTargets acts ≠ [])
    (hPmap : newP.map (fun p => (p.payload.subnet_id, p.payload.replica_version_id)) =
      subnetPlaceTargets acts)
    (hPopen : ∀ p ∈ newP, p.info.executed = false)
    (hUmap : newU.map (fun p => p.payload.replica_version) =
      (unassignedPlaceTargets acts).map some)
    (hUopen : ∀ p ∈ newU, p.info.executed = false) :
    ∃ acts2, check_stages last_bake_status (P ++ newP) (U ++ newU) index uv subnets now =
        Except.ok acts2 ∧
      List.Forall₂ (act_rel (P ++ newP) (U ++ newU)) acts acts2 ∧
      ∀ a ∈ acts2, ∀ (b : Bool) (s v : String), a ≠ SubnetAction.PlaceProposal b s v := by
  cases hdv : desired_rollout_release_version subnets index.releases with
  | error e =>
    simp only [check_stages, hdv] at h1
    cases h1
  | ok dv =>
    simp only [check_stages, hdv] at h1 ⊢
    rcases check_stages_go_ok last_bake_status P U uv subnets now dv
        index.rollout.stages acts h1 with
      ⟨pre, st, post, heq, hpre, hres⟩ | ⟨hall, rfl⟩
    · rcases hres with ⟨hg, rfl⟩ | ⟨hg, hcs, hnoop⟩
      · rcases hplace with h | h
        · exact absurd (subnetPlaceTargets_wait st.subnets) h
        · exact absurd (unassignedPlaceTargets_wait st.subnets) h
      · have hnewP_ex : ∀ t ∈ subnetPlaceTargets acts, ∃ p ∈ newP,
            p.payload.subnet_id = t.1 ∧ p.payload.replica_version_id = t.2 ∧
            p.info.executed = false := by
          intro t ht
          rw [← hPmap] at ht
          obtain ⟨p, hp, rfl⟩ := List.mem_map.mp ht
          exact ⟨p, hp, rfl, rfl, hPopen p hp⟩
        have hnewU_ex : ∀ v ∈ unassignedPlaceTargets acts, ∃ p ∈ newU,
            p.payload.replica_version = some v ∧ p.info.executed = false := by
          intro v hv
          have hsv : some v ∈ (unassignedPlaceTargets acts).map some :=
            List.mem_map_of_mem some hv
          rw [← hUmap] at hsv
          obtain ⟨p, hp, hpv⟩ := List.mem_map.mp hsv
          exact ⟨p, hp, hpv, hUopen p hp⟩
        obtain ⟨acts2, hcs2, hrel⟩ := check_stage_idem last_bake_status P newP U newU
          st uv subnets dv acts hcs hnewP_ex hnewU_ex
        rw [heq, check_stages_go_append last_bake_status (P ++ newP) (U ++ newU) uv
          subnets now dv pre (st :: post)
          (fun s hs => stage_passed_inv last_bake_status P U uv subnets now dv s
            (hpre s hs) (P ++ newP) (U ++ newU))]
        have hlen := hrel.length_eq
        refine ⟨acts2, ?_, hrel, ?_⟩
        · unfold gate_fired at hg
          simp only [check_stages_go, hg, Bool.false_eq_true, if_false, hcs2]
          have hnn : acts2.all isNoop = false := by
            obtain ⟨a, ha, hna⟩ := List.all_eq_false.mp hnoop
            obtain ⟨n, hn⟩ := List.mem_iff_get.mp ha
            have hri := (List.forall₂_iff_get.mp hrel).2 n.1 n.2 (by omega)
            rw [show acts.get ⟨n.1, n.2⟩ = a from hn] at hri
            refine List.all_eq_false.mpr ⟨acts2.get ⟨n.1, by omega⟩,
              List.get_mem _ _ _, ?_⟩
            rw [act_rel_not_noop (P ++ newP) (U ++ newU) a _ hri
              (Bool.not_eq_true _ ▸ hna)]
            simp
          simp only [hnn, Bool.false_eq_true, if_false]
        · intro a2 ha2 bb s v
          obtain ⟨n, hn⟩ := List.mem_iff_get.mp ha2
          have hri := (List.forall₂_iff_get.mp hrel).2 n.1 (by omega) n.2
          rw [show acts2.get ⟨n.1, n.2⟩ = a2 from hn] at hri
          exact act_rel_not_place (P ++ newP) (U ++ newU) _ a2 hri bb s v
    · rcases hplace with h | h
      · exact absurd rfl h
      · exact absurd rfl h

/-- Witness for C7: a fresh rollout places a proposal for the first
stage; appending that open proposal turns the `PlaceProposal` into a
`PendingProposal` on the re-run. -/
theorem c7_idempotence_witness :
    ∃ acts2, check_stages [] ([] ++ [⟨⟨"aaaaa-one", "v2"⟩, ⟨7, false⟩⟩]) ([] ++ [])
        ⟨⟨false, [], [⟨["aaaaa"], 10, false, false⟩]⟩,
          [⟨"rc-b", [⟨"b", "v2", []⟩], 0⟩, ⟨"rc-a", [⟨"a", "v1", []⟩], 0⟩]⟩ "v2"
        [⟨"aaaaa-one", "v1"⟩] 5 = Except.ok acts2 ∧
      List.Forall₂ (act_rel ([] ++ [⟨⟨"aaaaa-one", "v2"⟩, ⟨7, false⟩⟩]) ([] ++ []))
        [SubnetAction.PlaceProposal false "aaaaa-one" "v2"] acts2 ∧
      ∀ a ∈ acts2, ∀ (b : Bool) (s v : String), a ≠ SubnetAction.PlaceProposal b s v :=
  c7_idempotence [] [] []
    ⟨⟨false, [], [⟨["aaaaa"], 10, false, false⟩]⟩,
      [⟨"rc-b", [⟨"b", "v2", []⟩], 0⟩, ⟨"rc-a", [⟨"a", "v1", []⟩], 0⟩]⟩ "v2"
    [⟨"aaaaa-one", "v1"⟩] 5
    [SubnetAction.PlaceProposal false "aaaaa-one" "v2"]
    [⟨⟨"aaaaa-one", "v2"⟩, ⟨7, false⟩⟩] []
    (by decide) (Or.inl (by decide)) (by decide) (by decide) (by decide) (by decide)

end RolloutController
